import Mathlib

/-!
# Alarm clock of the Pintos timer device

A shallow embedding of `devices/timer.c`: the tick counter, the sleep list,
the sleep path (`timer_sleep`, `thread_sleep`), the wake pass of
`timer_interrupt`, the real-time sleeps and the loops of `timer_calibrate`;
and of the `write` system call of `userprog/syscall.c`.

The kernel state is passed explicitly.  `int64_t` values are integers, and
every arithmetic result of the source is reduced with `wrap64`.  The sleep
list is the list of the threads linked into it, front first; the deadline of
an entry is the `wakeup_time` field of its thread, as in the source.
-/

namespace Pintos

/-! ## Data model -/

/-- Thread handle: stands for a `struct thread *`. -/
abbrev Tid := Nat

/-- Modelled from the spec: `enum intr_level` of threads/interrupt.h, which is
not among the sources; the "interrupt-enable state", disabled or enabled. -/
inductive intr_level where
  | INTR_OFF
  | INTR_ON
  deriving DecidableEq, Repr

/-- Modelled from the spec: `enum thread_status` of threads/thread.h, which is
not among the sources; a thread is running or ready (runnable), blocked
("excluded from scheduling until explicitly made runnable"), or being
destroyed. -/
inductive thread_status where
  | THREAD_RUNNING
  | THREAD_READY
  | THREAD_BLOCKED
  | THREAD_DYING
  deriving DecidableEq, Repr

open intr_level thread_status

/-- Modelled from the spec: `struct thread` of threads/thread.h, which is not
among the sources, reduced to the deadline field `wakeup_time` that timer.c
reads and writes and to the scheduling state. -/
structure thread where
  wakeup_time : Int
  status : thread_status
  deriving DecidableEq, Repr

/-- Kernel state seen by the timer module.
`ticks` and `sleep_list` are the statics of timer.c; `threads` is the thread
table; `idle_thread` is what `thread_get_idle ()` returns; `level` is the
interrupt-enable flag.  `unblocked` records the calls of `thread_unblock` in
the order they were made and `console` the strings printed. -/
structure Kernel where
  ticks : Int
  sleep_list : List Tid
  threads : Tid → thread
  idle_thread : Tid
  level : intr_level
  unblocked : List Tid
  console : List String

/-- Two's-complement reduction of an integer to the range of `int64_t`. -/
def wrap64 (x : Int) : Int := (x + 2 ^ 63) % 2 ^ 64 - 2 ^ 63

/-- The value fits `int64_t`. -/
def int64 (x : Int) : Prop := -(2 ^ 63) ≤ x ∧ x < 2 ^ 63

/-- How a call into the sleep path ends. -/
inductive Outcome where
  /-- An `ASSERT` failed: the kernel panics in the given state. -/
  | panicked (s : Kernel)
  /-- The call returned to its caller. -/
  | returned (s : Kernel)
  /-- The caller is suspended inside `thread_block`; `old_level` is the
  interrupt level it saved and restores once it runs again. -/
  | blocked (s : Kernel) (old_level : intr_level)

/-- The call ended in a kernel panic. -/
def Outcome.halts : Outcome → Bool
  | .panicked _ => true
  | _ => false

/-- The call returned normally to its caller. -/
def Outcome.returns : Outcome → Bool
  | .returned _ => true
  | _ => false

/-- The kernel state carried by an outcome. -/
def Outcome.state : Outcome → Kernel
  | .panicked s => s
  | .returned s => s
  | .blocked s _ => s

/-! ## Collaborators outside timer.c -/

/-- Modelled from the spec: `intr_get_level` of threads/interrupt.c, which is
not among the sources; it reads the interrupt-enable state. -/
def intr_get_level (s : Kernel) : intr_level := s.level

/-- Modelled from the spec: `intr_disable` of threads/interrupt.c, which is
not among the sources; it disables interrupts and returns the previous
interrupt-enable state. -/
def intr_disable (s : Kernel) : intr_level × Kernel :=
  (s.level, { s with level := INTR_OFF })

/-- Modelled from the spec: `intr_set_level` of threads/interrupt.c, which is
not among the sources; it sets the interrupt-enable state ("restore the
previous interrupt-enable state"). -/
def intr_set_level (s : Kernel) (l : intr_level) : Kernel :=
  { s with level := l }

/-- Assignment to the `status` field of one thread. -/
def set_status (s : Kernel) (t : Tid) (st : thread_status) : Kernel :=
  { s with threads := fun x => if x = t then { s.threads x with status := st } else s.threads x }

/-- Assignment to the `wakeup_time` field of one thread. -/
def set_wakeup_time (s : Kernel) (t : Tid) (w : Int) : Kernel :=
  { s with threads := fun x => if x = t then { s.threads x with wakeup_time := w } else s.threads x }

/-- Modelled from the spec: `thread_block` of threads/thread.c, which is not
among the sources; "removes a thread from runnable rotation until explicitly
unblocked".  The state is the one in which the caller `cur` is suspended. -/
def thread_block (s : Kernel) (cur : Tid) : Kernel :=
  set_status s cur THREAD_BLOCKED

/-- Modelled from the spec: `thread_unblock` of threads/thread.c, which is not
among the sources; "makes a blocked thread runnable again".  The call is
appended to the `unblocked` record. -/
def thread_unblock (s : Kernel) (t : Tid) : Kernel :=
  { set_status s t THREAD_READY with unblocked := s.unblocked ++ [t] }

/-- Modelled from the spec: `thread_tick` of threads/thread.c, which is not
among the sources; the "periodic on_tick() hook for time-slice accounting".
It touches neither the tick counter nor the sleep list. -/
def thread_tick (s : Kernel) : Kernel := s

/-- Modelled from the spec: `list_insert_ordered` of lib/kernel/list.c, which
is not among the sources; an "ordered insert ... stable for equal deadlines
(insert after existing equal-deadline entries)": walking from the front,
`elem` is linked in before the first entry `e` with `less elem e`, and at
the back when there is none. -/
def list_insert_ordered {α : Type} (less : α → α → Bool) (elem : α) : List α → List α
  | [] => [elem]
  | e :: rest =>
    if less elem e then elem :: e :: rest
    else e :: list_insert_ordered less elem rest

/-! ## timer.c -/

/-- Source `timer_init`, line 59: `list_init (&sleep_list)`.  The
programming of the 8254 and the registration of the handler are outside the
state modelled here. -/
def timer_init (s : Kernel) : Kernel :=
  { s with sleep_list := [] }

/-- Source `timer_ticks`: the tick counter, read inside an
interrupt-disabled bracket.  Returns the value read and the state after. -/
def timer_ticks (s : Kernel) : Int × Kernel :=
  let old_level := (intr_disable s).1
  let s1 := (intr_disable s).2
  let t := s1.ticks
  (t, intr_set_level s1 old_level)

/-- Source `timer_elapsed`: `timer_ticks () - then`. -/
def timer_elapsed (s : Kernel) (then_ : Int) : Int × Kernel :=
  (wrap64 ((timer_ticks s).1 - then_), (timer_ticks s).2)

/-- Source `wakeup_less`: strict comparison of the `wakeup_time` of the two
threads that own the list elements. -/
def wakeup_less (s : Kernel) (a b : Tid) : Bool :=
  decide ((s.threads a).wakeup_time < (s.threads b).wakeup_time)

/-- Source `thread_sleep`, up to the point where the caller is suspended in
`thread_block ()`.  `cur` is what `thread_current ()` returns. -/
def thread_sleep (s : Kernel) (cur : Tid) (ticks : Int) : Outcome :=
  let t := cur
  if t = s.idle_thread then
    .returned { s with console := s.console ++ ["now idle"] }
  else
    let old_level := (intr_disable s).1
    let s1 := (intr_disable s).2
    let s2 := set_wakeup_time s1 t ticks
    let s3 := { s2 with sleep_list := list_insert_ordered (wakeup_less s2) t s2.sleep_list }
    .blocked (thread_block s3 t) old_level

/-- Source `thread_sleep`, line 169: what the caller runs once it has been
unblocked and scheduled again, `intr_set_level (old_level)`. -/
def thread_sleep_resume (s : Kernel) (old_level : intr_level) : Kernel :=
  intr_set_level s old_level

/-- The `while` loop of `timer_interrupt`, lines 217-238.  The first argument
is the sleep list of the state; the recursion follows `list_pop_front`. -/
def wake_loop : List Tid → Kernel → Kernel
  | [], s => s
  | t :: rest, s =>
    if (s.threads t).wakeup_time > s.ticks then s
    else wake_loop rest (thread_unblock { s with sleep_list := rest } t)

/-- Source `timer_interrupt`. -/
def timer_interrupt (s : Kernel) : Kernel :=
  let s1 := { s with ticks := wrap64 (s.ticks + 1) }
  let s2 := thread_tick s1
  let old_level := (intr_disable s2).1
  let s3 := (intr_disable s2).2
  let s4 := wake_loop s3.sleep_list s3
  intr_set_level s4 old_level

/-- Source `timer_sleep`.  With interrupts enabled the timer interrupt can
arrive while the function runs: `n` interrupts are delivered between the two
readings of the tick counter (lines 120 and 132), and `m` between the test of
line 132 and the `intr_disable ()` of `thread_sleep`. -/
def timer_sleep (s : Kernel) (cur : Tid) (ticks : Int) (n m : Nat) : Outcome :=
  let start := (timer_ticks s).1
  let s0 := (timer_ticks s).2
  if intr_get_level s0 ≠ INTR_ON then .panicked s0
  else
    let s1 := timer_interrupt^[n] s0
    if (timer_elapsed s1 start).1 < ticks then
      thread_sleep (timer_interrupt^[m] (timer_elapsed s1 start).2) cur (wrap64 (start + ticks))
    else .returned (timer_elapsed s1 start).2

/-! ## Calibration -/

/-- Reduction to the range of `unsigned` (32 bits). -/
def wrap32 (x : Nat) : Nat := x % 2 ^ 32

/-- How a loop of `timer_calibrate` ends. -/
inductive Calib (α : Type) where
  /-- The loop ran to its end with the given result. -/
  | done (a : α)
  /-- `ASSERT (loops_per_tick != 0)` failed. -/
  | assert_failed
  /-- The iteration budget of the model was used up. -/
  | out_of_fuel
  deriving DecidableEq, Repr

/-- The doubling loop of `timer_calibrate`, lines 78-82, from the current
`loops_per_tick`; `too_many_loops` gives the outcome of each measurement. -/
def calibrate_double (too_many_loops : Nat → Bool) : Nat → Nat → Calib Nat
  | 0, _ => .out_of_fuel
  | fuel + 1, loops_per_tick =>
    if !too_many_loops (wrap32 (loops_per_tick <<< 1)) then
      if wrap32 (loops_per_tick <<< 1) ≠ 0 then
        calibrate_double too_many_loops fuel (wrap32 (loops_per_tick <<< 1))
      else .assert_failed
    else .done loops_per_tick

/-- The refinement loop of `timer_calibrate`, lines 86-88, from the current
`test_bit` and `loops_per_tick`.  `tested` records the bit positions tested
so far, in order. -/
def calibrate_refine (too_many_loops : Nat → Bool) (high_bit : Nat) :
    Nat → Nat → Nat → List Nat → Calib (Nat × List Nat)
  | 0, _, _, _ => .out_of_fuel
  | fuel + 1, test_bit, loops_per_tick, tested =>
    if test_bit ≠ high_bit >>> 10 then
      calibrate_refine too_many_loops high_bit fuel (test_bit >>> 1)
        (if !too_many_loops (high_bit ||| test_bit) then loops_per_tick ||| test_bit
         else loops_per_tick)
        (tested ++ [test_bit])
    else .done (loops_per_tick, tested)

/-- Source `timer_calibrate`, lines 78-88: the doubling loop fixes the high
bit, the refinement loop follows.  The result is `loops_per_tick` and the bit
positions the refinement tested. -/
def timer_calibrate (too_many_loops : Nat → Bool) (fuel : Nat) : Calib (Nat × List Nat) :=
  match calibrate_double too_many_loops fuel (1 <<< 10) with
  | .done loops_per_tick =>
    calibrate_refine too_many_loops loops_per_tick fuel (loops_per_tick >>> 1)
      loops_per_tick []
  | .assert_failed => .assert_failed
  | .out_of_fuel => .out_of_fuel

/-! ## Real-time sleeps -/

/-- How `real_time_sleep` ends. -/
inductive RealTime where
  /-- An `ASSERT` failed: the kernel panics in the given state. -/
  | panicked (s : Kernel)
  /-- A division by zero. -/
  | fault (s : Kernel)
  /-- `timer_sleep (ticks)` was called and ended with the given outcome. -/
  | slept (ticks : Int) (o : Outcome)
  /-- `busy_wait (loops)` was called; it spins and leaves the state as it is. -/
  | busy_waited (s : Kernel) (loops : Int)

/-- Source `real_time_sleep`.  `TIMER_FREQ` is the constant of devices/timer.h,
which is not among the sources, and `loops_per_tick` the static set by
`timer_calibrate`.  Division is the truncating division of C; `n` and `m` are
the interrupts delivered during the `timer_sleep` call. -/
def real_time_sleep (TIMER_FREQ : Int) (loops_per_tick : Nat) (s : Kernel) (cur : Tid)
    (num denom : Int) (n m : Nat) : RealTime :=
  if denom = 0 then .fault s
  else
    let ticks := wrap64 (Int.tdiv (wrap64 (num * TIMER_FREQ)) denom)
    if intr_get_level s ≠ INTR_ON then .panicked s
    else if ticks > 0 then .slept ticks (timer_sleep s cur ticks n m)
    else if Int.tmod denom 1000 ≠ 0 then .panicked s
    else if Int.tdiv denom 1000 = 0 then .fault s
    else
      .busy_waited s
        (wrap64 (Int.tdiv
          (wrap64 (wrap64 (Int.tdiv (wrap64 (loops_per_tick * num)) 1000) * TIMER_FREQ))
          (Int.tdiv denom 1000)))

/-- Source `timer_msleep`. -/
def timer_msleep (TIMER_FREQ : Int) (loops_per_tick : Nat) (s : Kernel) (cur : Tid)
    (ms : Int) (n m : Nat) : RealTime :=
  real_time_sleep TIMER_FREQ loops_per_tick s cur ms 1000 n m

/-- Source `timer_usleep`. -/
def timer_usleep (TIMER_FREQ : Int) (loops_per_tick : Nat) (s : Kernel) (cur : Tid)
    (us : Int) (n m : Nat) : RealTime :=
  real_time_sleep TIMER_FREQ loops_per_tick s cur us (1000 * 1000) n m

/-- Source `timer_nsleep`. -/
def timer_nsleep (TIMER_FREQ : Int) (loops_per_tick : Nat) (s : Kernel) (cur : Tid)
    (ns : Int) (n m : Nat) : RealTime :=
  real_time_sleep TIMER_FREQ loops_per_tick s cur ns (1000 * 1000 * 1000) n m

/-! ## userprog/syscall.c -/

/-- Two's-complement reduction of an integer to the range of `int` (32 bits):
the conversion of an `unsigned` value to `int`. -/
def wrap32s (x : Int) : Int := (x + 2 ^ 31) % 2 ^ 32 - 2 ^ 31

/-- What `write` sees of the kernel: the file descriptor table of the current
thread (`none` is `NULL`), `filesys_lock` with the count of its acquisitions
and releases, and the records of the `putbuf` and `file_write` calls. -/
structure Sys where
  fdt : Int → Option Nat
  lock_held : Bool
  acquires : Nat
  releases : Nat
  stdout : List Nat
  file_writes : List (Nat × Nat)

/-- How a system call ends. -/
inductive SysOutcome where
  /-- The process was terminated through `sys_exit (status)`. -/
  | exited (status : Int) (s : Sys)
  /-- The call returned `ret` to its caller. -/
  | returned (ret : Int) (s : Sys)

/-- The value returned, when the call returned. -/
def SysOutcome.ret : SysOutcome → Option Int
  | .exited _ _ => none
  | .returned r _ => some r

/-- The state a system call leaves. -/
def SysOutcome.sys : SysOutcome → Sys
  | .exited _ s => s
  | .returned _ s => s

/-- Modelled from the spec: `lock_acquire` of threads/synch.c, which is not
among the sources; one of "the underlying file I/O and locking primitives". -/
def lock_acquire (s : Sys) : Sys :=
  { s with lock_held := true, acquires := s.acquires + 1 }

/-- Modelled from the spec: `lock_release` of threads/synch.c, which is not
among the sources; one of "the underlying file I/O and locking primitives". -/
def lock_release (s : Sys) : Sys :=
  { s with lock_held := false, releases := s.releases + 1 }

/-- Modelled from the spec: `putbuf` of lib/kernel/console.c, which is not
among the sources; it prints `size` bytes of the buffer to the console. -/
def putbuf (s : Sys) (size : Nat) : Sys :=
  { s with stdout := s.stdout ++ [size] }

/-- Source `process_get_file`. -/
def process_get_file (s : Sys) (fd : Int) : Option Nat :=
  if fd < 2 ∨ fd ≥ 128 then none
  else s.fdt fd

/-- Source `write`.  `buffer_ok` is the outcome of the tests of
`check_address (buffer)`, which ends the process with `sys_exit (-1)` when
they fail; `file_write` (filesys/file.c, not among the sources) is a
parameter that gives the count returned for a file and a size; `size` is an
`unsigned`. -/
def write (file_write : Nat → Nat → Int) (s : Sys) (buffer_ok : Bool) (fd : Int)
    (size : Nat) : SysOutcome :=
  if !buffer_ok then .exited (-1) s
  else
    let file := process_get_file s fd
    let bytes_written : Int := 0
    let s1 := lock_acquire s
    if fd = 1 then
      let s2 := putbuf s1 size
      let bytes_written := wrap32s size
      .returned bytes_written (lock_release s2)
    else if fd = 0 then
      .returned (-1) (lock_release s1)
    else if fd ≥ 2 then
      match file with
      | none => .returned (-1) (lock_release s1)
      | some f =>
        let s2 := { s1 with file_writes := s1.file_writes ++ [(f, size)] }
        let bytes_written := file_write f size
        .returned bytes_written (lock_release s2)
    else .returned bytes_written (lock_release s1)

/-! ## Registry invariant and reachable states -/

/-- The deadlines of the sleep list, front first. -/
def deadlines (s : Kernel) : List Int :=
  s.sleep_list.map (fun t => (s.threads t).wakeup_time)

/-- Well-formedness of the sleep list: sorted by `wakeup_time`, no thread
linked twice, every linked thread blocked. -/
structure Inv (s : Kernel) : Prop where
  sorted : s.sleep_list.Pairwise
    (fun a b => (s.threads a).wakeup_time ≤ (s.threads b).wakeup_time)
  nodup : s.sleep_list.Nodup
  blocked : ∀ t ∈ s.sleep_list, (s.threads t).status = THREAD_BLOCKED

/-- One event of the alarm clock: a thread that is not blocked calls
`thread_sleep`, the timer interrupt fires, or the thread that runs sets the
interrupt level (as a thread does when it is switched in and leaves its
critical section). -/
inductive Step : Kernel → Kernel → Prop where
  | sleep (s : Kernel) (t : Tid) (d : Int) :
      (s.threads t).status ≠ THREAD_BLOCKED → Step s (thread_sleep s t d).state
  | tick (s : Kernel) : Step s (timer_interrupt s)
  | level (s : Kernel) (l : intr_level) : Step s (intr_set_level s l)

/-- States reachable from the registry that `timer_init` creates. -/
inductive Reachable : Kernel → Prop where
  | init (s0 : Kernel) : Reachable (timer_init s0)
  | step {s s' : Kernel} : Reachable s → Step s s' → Reachable s'

/-- Runs in which no timer interrupt reaches tick `D`: `RunsBefore D s s'`
holds when `s'` is reached from `s` by events of `Step` such that every timer
interrupt among them results in a tick value below `D`. -/
inductive RunsBefore (D : Int) : Kernel → Kernel → Prop where
  | refl (s : Kernel) : RunsBefore D s s
  | sleep {s s' : Kernel} (u : Tid) (d : Int) : RunsBefore D s s' →
      (s'.threads u).status ≠ THREAD_BLOCKED → RunsBefore D s (thread_sleep s' u d).state
  | tick {s s' : Kernel} : RunsBefore D s s' →
      (timer_interrupt s').ticks < D → RunsBefore D s (timer_interrupt s')
  | level {s s' : Kernel} (l : intr_level) : RunsBefore D s s' →
      RunsBefore D s (intr_set_level s' l)

/-- The sleep list is sorted by `wakeup_time` ascending: every two adjacent
entries satisfy `deadline[i] ≤ deadline[i+1]`. -/
def sleep_list_sorted (s : Kernel) : Prop :=
  List.Chain' (fun a b => a ≤ b) (deadlines s)

/-! ## The wake scan, instrumented -/

/-- What one run of the wake loop did: the state it left, the front entries
it read with `list_front`, in order, and the entries it removed with
`list_pop_front`, in order. -/
structure Scan where
  state : Kernel
  inspected : List Tid
  removed : List Tid

/-- The `while` loop of `timer_interrupt`, lines 217-238, as `wake_loop`,
with the record of the entries read and removed. -/
def wake_scan : List Tid → Kernel → Scan
  | [], s => ⟨s, [], []⟩
  | t :: rest, s =>
    if (s.threads t).wakeup_time > s.ticks then ⟨s, [t], []⟩
    else
      let r := wake_scan rest (thread_unblock { s with sleep_list := rest } t)
      ⟨r.state, t :: r.inspected, t :: r.removed⟩

/-- The wake loop as `timer_interrupt` runs it: after `ticks++`,
`thread_tick ()` and `intr_disable ()`. -/
def timer_interrupt_scan (s : Kernel) : Scan :=
  let s1 := { s with ticks := wrap64 (s.ticks + 1) }
  let s2 := thread_tick s1
  let s3 := (intr_disable s2).2
  wake_scan s3.sleep_list s3

/-! ## Runs of live threads -/

/-- A kernel at tick 100 with an empty sleep list and interrupts enabled;
thread 0 is the idle thread, threads 1 and 2 stand for A and B. -/
def boot : Kernel :=
  { ticks := 100, sleep_list := [], threads := fun _ => ⟨0, THREAD_READY⟩,
    idle_thread := 0, level := INTR_ON, unblocked := [], console := [] }

/-- Thread A calls `timer_sleep (10)` at tick 100 and is suspended. -/
def A_asleep : Kernel := (timer_sleep boot 1 10 0 0).state

/-- Thread B is switched in with interrupts enabled, calls `timer_sleep (5)`,
still at tick 100, and is suspended; the next thread runs with interrupts
enabled. -/
def AB_asleep : Kernel :=
  intr_set_level (timer_sleep (intr_set_level A_asleep INTR_ON) 2 5 0 0).state INTR_ON

/-- The threads of `regs` call `timer_sleep` one after the other with the
given durations and no timer interrupt in between; after each call the next
thread runs with interrupts enabled. -/
def register : Kernel → List (Tid × Int) → Kernel
  | s, [] => s
  | s, (t, d) :: rest => register (intr_set_level (timer_sleep s t d 0 0).state INTR_ON) rest

/-- At tick 100, A then B call `timer_sleep (10)`. -/
def AB_equal : Kernel := register boot [(1, 10), (2, 10)]

/-- A process with one open file, handle 7, at descriptor 3; `filesys_lock`
is free. -/
def one_file : Sys :=
  { fdt := fun fd => if fd = 3 then some 7 else none,
    lock_held := false, acquires := 0, releases := 0, stdout := [], file_writes := [] }

/-- A `file_write` that writes every byte it is given. -/
def writes_all (_file : Nat) (size : Nat) : Int := size

/-- Thread 1 sleeps until 110, thread 2 until 105, then one tick passes. -/
def two_sleepers : Kernel :=
  timer_interrupt (thread_sleep (thread_sleep (timer_init boot) 1 110).state 2 105).state

/-- A sorted sleep list at tick 104: deadlines 105, 105, 110 and 120. -/
def four_sleepers : Kernel :=
  { ticks := 104, sleep_list := [3, 1, 2, 4],
    threads := fun x =>
      if x = 1 then ⟨105, THREAD_BLOCKED⟩ else if x = 2 then ⟨110, THREAD_BLOCKED⟩
      else if x = 3 then ⟨105, THREAD_BLOCKED⟩ else if x = 4 then ⟨120, THREAD_BLOCKED⟩
      else ⟨0, THREAD_READY⟩,
    idle_thread := 0, level := INTR_ON, unblocked := [], console := [] }

/-- At tick 100, thread 1 calls `timer_sleep (2^63 - 1)`, then thread 2 calls
`timer_sleep (10)`. -/
def overflow_pair : Kernel := register boot [(1, 9223372036854775807), (2, 10)]

end Pintos

/-! ## Facts about lists -/

namespace Pintos
open intr_level thread_status

section ListFacts
variable {α : Type}

theorem takeWhile_le_eq_filter (key : α → Int) (T : Int) (l : List α)
    (h : l.Pairwise (fun a b => key a ≤ key b)) :
    l.takeWhile (fun x => decide (key x ≤ T)) = l.filter (fun x => decide (key x ≤ T)) := by
  induction l with
  | nil => rfl
  | cons a l ih =>
    rw [List.pairwise_cons] at h
    by_cases ha : key a ≤ T
    · simp [List.takeWhile_cons, List.filter_cons, ha, ih h.2]
    · have hnil : l.filter (fun x => decide (key x ≤ T)) = [] := by
        rw [List.filter_eq_nil_iff]
        intro x hx
        have := h.1 x hx
        simp only [decide_eq_true_eq]
        omega
      simp [List.takeWhile_cons, List.filter_cons, ha, hnil]

theorem dropWhile_le_eq_filter (key : α → Int) (T : Int) (l : List α)
    (h : l.Pairwise (fun a b => key a ≤ key b)) :
    l.dropWhile (fun x => decide (key x ≤ T)) = l.filter (fun x => decide (T < key x)) := by
  induction l with
  | nil => rfl
  | cons a l ih =>
    rw [List.pairwise_cons] at h
    by_cases ha : key a ≤ T
    · have ha2 : ¬ T < key a := by omega
      simp [List.dropWhile_cons, List.filter_cons, ha, ha2, ih h.2]
    · have ha2 : T < key a := by omega
      have hall : l.filter (fun x => decide (T < key x)) = l := by
        rw [List.filter_eq_self]
        intro x hx
        have := h.1 x hx
        simp only [decide_eq_true_eq]
        omega
      simp [List.dropWhile_cons, List.filter_cons, ha, ha2, hall]

theorem list_insert_ordered_eq (less : α → α → Bool) (e : α) (l : List α) :
    list_insert_ordered less e l
      = l.takeWhile (fun x => !less e x) ++ e :: l.dropWhile (fun x => !less e x) := by
  induction l with
  | nil => rfl
  | cons a l ih =>
    by_cases h : less e a = true
    · simp [list_insert_ordered, h, List.takeWhile_cons, List.dropWhile_cons]
    · simp [list_insert_ordered, h, List.takeWhile_cons, List.dropWhile_cons, ih]

theorem list_insert_ordered_perm (less : α → α → Bool) (e : α) (l : List α) :
    (list_insert_ordered less e l).Perm (e :: l) := by
  rw [list_insert_ordered_eq]
  have h := List.takeWhile_append_dropWhile (fun x => !less e x) l
  calc (l.takeWhile (fun x => !less e x) ++ e :: l.dropWhile (fun x => !less e x)).Perm
        (e :: (l.takeWhile (fun x => !less e x) ++ l.dropWhile (fun x => !less e x))) :=
          List.perm_middle
    _ = e :: l := by rw [h]

end ListFacts

/-! ## Field lemmas for the operations -/

theorem list_insert_ordered_sorted {α : Type} (key : α → Int) (e : α) (l : List α)
    (h : l.Pairwise (fun a b => key a ≤ key b)) :
    (list_insert_ordered (fun a b => decide (key a < key b)) e l).Pairwise
      (fun a b => key a ≤ key b) := by
  induction l with
  | nil => simp [list_insert_ordered]
  | cons a l ih =>
    have h' := List.pairwise_cons.mp h
    by_cases hlt : key e < key a
    · simp only [list_insert_ordered, hlt, decide_True, if_true]
      refine List.pairwise_cons.mpr ⟨?_, h⟩
      intro x hx
      rcases List.mem_cons.mp hx with rfl | hx
      · omega
      · have := h'.1 x hx
        omega
    · simp only [list_insert_ordered, hlt, decide_False, Bool.false_eq_true, if_false]
      refine List.pairwise_cons.mpr ⟨?_, ih h'.2⟩
      intro x hx
      rcases List.mem_cons.mp ((list_insert_ordered_perm _ e l).mem_iff.mp hx) with rfl | hx
      · omega
      · exact h'.1 x hx

@[simp] theorem set_status_wakeup_time (s : Kernel) (t x : Tid) (st : thread_status) :
    ((set_status s t st).threads x).wakeup_time = (s.threads x).wakeup_time := by
  unfold set_status
  by_cases h : x = t <;> simp [h]

theorem set_status_status (s : Kernel) (t x : Tid) (st : thread_status) :
    ((set_status s t st).threads x).status = if x = t then st else (s.threads x).status := by
  unfold set_status
  by_cases h : x = t <;> simp [h]

theorem set_wakeup_time_wakeup_time (s : Kernel) (t x : Tid) (w : Int) :
    ((set_wakeup_time s t w).threads x).wakeup_time
      = if x = t then w else (s.threads x).wakeup_time := by
  unfold set_wakeup_time
  by_cases h : x = t <;> simp [h]

@[simp] theorem set_wakeup_time_status (s : Kernel) (t x : Tid) (w : Int) :
    ((set_wakeup_time s t w).threads x).status = (s.threads x).status := by
  unfold set_wakeup_time
  by_cases h : x = t <;> simp [h]

/-- The state in which a caller other than the idle thread is suspended. -/
theorem thread_sleep_blocked (s : Kernel) (t : Tid) (d : Int) (h : t ≠ s.idle_thread) :
    thread_sleep s t d
      = .blocked (thread_block
          { set_wakeup_time (intr_disable s).2 t d with
            sleep_list := list_insert_ordered
              (wakeup_less (set_wakeup_time (intr_disable s).2 t d)) t s.sleep_list } t)
          s.level := by
  simp [thread_sleep, h, intr_disable, set_wakeup_time]

theorem thread_sleep_sleep_list (s : Kernel) (t : Tid) (d : Int) (h : t ≠ s.idle_thread) :
    (thread_sleep s t d).state.sleep_list
      = list_insert_ordered
          (fun a b => decide ((if a = t then d else (s.threads a).wakeup_time)
                                < (if b = t then d else (s.threads b).wakeup_time)))
          t s.sleep_list := by
  rw [thread_sleep_blocked s t d h]
  simp only [Outcome.state, thread_block, set_status]
  congr 1
  funext a b
  simp only [wakeup_less, set_wakeup_time_wakeup_time]
  rfl

theorem thread_sleep_wakeup_time (s : Kernel) (t x : Tid) (d : Int) (h : t ≠ s.idle_thread) :
    ((thread_sleep s t d).state.threads x).wakeup_time
      = if x = t then d else (s.threads x).wakeup_time := by
  rw [thread_sleep_blocked s t d h]
  simp only [Outcome.state, thread_block]
  rw [set_status_wakeup_time]
  exact set_wakeup_time_wakeup_time _ t x d

theorem thread_sleep_status (s : Kernel) (t x : Tid) (d : Int) (h : t ≠ s.idle_thread) :
    ((thread_sleep s t d).state.threads x).status
      = if x = t then THREAD_BLOCKED else (s.threads x).status := by
  rw [thread_sleep_blocked s t d h]
  simp only [Outcome.state, thread_block]
  rw [set_status_status]
  by_cases hx : x = t
  · simp [hx]
  · simp only [hx, if_false]
    exact set_wakeup_time_status _ t x d

theorem thread_sleep_idle (s : Kernel) (d : Int) :
    thread_sleep s s.idle_thread d
      = .returned { s with console := s.console ++ ["now idle"] } := by
  simp [thread_sleep]


/-! ## The wake pass -/

theorem thread_unblock_wakeup_time (s : Kernel) (t x : Tid) :
    ((thread_unblock s t).threads x).wakeup_time = (s.threads x).wakeup_time := by
  simp [thread_unblock]

theorem thread_unblock_status (s : Kernel) (t x : Tid) :
    ((thread_unblock s t).threads x).status
      = if x = t then THREAD_READY else (s.threads x).status := by
  simp only [thread_unblock]
  exact set_status_status s t x THREAD_READY

theorem wake_loop_ticks (l : List Tid) (s : Kernel) : (wake_loop l s).ticks = s.ticks := by
  induction l generalizing s with
  | nil => rfl
  | cons t rest ih =>
    simp only [wake_loop]
    split
    · rfl
    · rw [ih]; rfl

theorem wake_loop_level (l : List Tid) (s : Kernel) : (wake_loop l s).level = s.level := by
  induction l generalizing s with
  | nil => rfl
  | cons t rest ih =>
    simp only [wake_loop]
    split
    · rfl
    · rw [ih]; rfl

theorem wake_loop_idle_thread (l : List Tid) (s : Kernel) :
    (wake_loop l s).idle_thread = s.idle_thread := by
  induction l generalizing s with
  | nil => rfl
  | cons t rest ih =>
    simp only [wake_loop]
    split
    · rfl
    · rw [ih]; rfl

theorem wake_loop_console (l : List Tid) (s : Kernel) :
    (wake_loop l s).console = s.console := by
  induction l generalizing s with
  | nil => rfl
  | cons t rest ih =>
    simp only [wake_loop]
    split
    · rfl
    · rw [ih]; rfl

theorem wake_loop_wakeup_time (l : List Tid) (s : Kernel) (x : Tid) :
    ((wake_loop l s).threads x).wakeup_time = (s.threads x).wakeup_time := by
  induction l generalizing s with
  | nil => rfl
  | cons t rest ih =>
    simp only [wake_loop]
    split
    · rfl
    · rw [ih, thread_unblock_wakeup_time]

/-- The entries the loop leaves: it stops at the first entry that is not due. -/
theorem wake_loop_sleep_list (l : List Tid) (s : Kernel) (hl : s.sleep_list = l) :
    (wake_loop l s).sleep_list
      = l.dropWhile (fun t => decide ((s.threads t).wakeup_time ≤ s.ticks)) := by
  induction l generalizing s with
  | nil => simpa [wake_loop] using hl
  | cons t rest ih =>
    simp only [wake_loop]
    by_cases h : (s.threads t).wakeup_time > s.ticks
    · have h2 : ¬ (s.threads t).wakeup_time ≤ s.ticks := by omega
      simp [h, h2, List.dropWhile_cons, hl]
    · have h2 : (s.threads t).wakeup_time ≤ s.ticks := by omega
      rw [if_neg h, ih _ rfl]
      simp only [List.dropWhile_cons, h2, decide_True, if_true, thread_unblock_wakeup_time]
      rfl

/-- The calls of `thread_unblock` the loop makes, in order. -/
theorem wake_loop_unblocked (l : List Tid) (s : Kernel) :
    (wake_loop l s).unblocked
      = s.unblocked ++ l.takeWhile (fun t => decide ((s.threads t).wakeup_time ≤ s.ticks)) := by
  induction l generalizing s with
  | nil => simp [wake_loop]
  | cons t rest ih =>
    simp only [wake_loop]
    by_cases h : (s.threads t).wakeup_time > s.ticks
    · have h2 : ¬ (s.threads t).wakeup_time ≤ s.ticks := by omega
      simp [h, h2, List.takeWhile_cons]
    · have h2 : (s.threads t).wakeup_time ≤ s.ticks := by omega
      rw [if_neg h, ih]
      simp only [List.takeWhile_cons, h2, decide_True, if_true, thread_unblock_wakeup_time]
      simp [thread_unblock, set_status]

/-- The loop changes the status of the threads it unblocks and of no other. -/
theorem wake_loop_status (l : List Tid) (s : Kernel) (x : Tid) :
    ((wake_loop l s).threads x).status
      = if x ∈ l.takeWhile (fun t => decide ((s.threads t).wakeup_time ≤ s.ticks))
        then THREAD_READY else (s.threads x).status := by
  induction l generalizing s with
  | nil => simp [wake_loop]
  | cons t rest ih =>
    simp only [wake_loop]
    by_cases h : (s.threads t).wakeup_time > s.ticks
    · have h2 : ¬ (s.threads t).wakeup_time ≤ s.ticks := by omega
      simp [h, h2, List.takeWhile_cons]
    · have h2 : (s.threads t).wakeup_time ≤ s.ticks := by omega
      rw [if_neg h, ih]
      simp only [List.takeWhile_cons, h2, decide_True, if_true, thread_unblock_wakeup_time,
        thread_unblock_status, List.mem_cons]
      have e : (thread_unblock { s with sleep_list := rest } t).ticks = s.ticks := rfl
      rw [e]
      by_cases hx : x = t
      · simp [hx]
      · simp [hx]


/-! ## Field lemmas for `timer_interrupt` -/

theorem timer_interrupt_ticks (s : Kernel) :
    (timer_interrupt s).ticks = wrap64 (s.ticks + 1) := by
  simp [timer_interrupt, intr_set_level, intr_disable, thread_tick, wake_loop_ticks]

theorem timer_interrupt_level (s : Kernel) : (timer_interrupt s).level = s.level := by
  simp [timer_interrupt, intr_set_level, intr_disable, thread_tick]

theorem timer_interrupt_idle_thread (s : Kernel) :
    (timer_interrupt s).idle_thread = s.idle_thread := by
  simp [timer_interrupt, intr_set_level, intr_disable, thread_tick, wake_loop_idle_thread]

theorem timer_interrupt_console (s : Kernel) :
    (timer_interrupt s).console = s.console := by
  simp [timer_interrupt, intr_set_level, intr_disable, thread_tick, wake_loop_console]

theorem timer_interrupt_wakeup_time (s : Kernel) (x : Tid) :
    ((timer_interrupt s).threads x).wakeup_time = (s.threads x).wakeup_time := by
  simp [timer_interrupt, intr_set_level, intr_disable, thread_tick, wake_loop_wakeup_time]

theorem timer_interrupt_sleep_list (s : Kernel) :
    (timer_interrupt s).sleep_list
      = s.sleep_list.dropWhile
          (fun t => decide ((s.threads t).wakeup_time ≤ (timer_interrupt s).ticks)) := by
  rw [timer_interrupt_ticks]
  simp only [timer_interrupt, intr_set_level, intr_disable, thread_tick]
  exact wake_loop_sleep_list s.sleep_list _ rfl

theorem timer_interrupt_unblocked (s : Kernel) :
    (timer_interrupt s).unblocked
      = s.unblocked ++ s.sleep_list.takeWhile
          (fun t => decide ((s.threads t).wakeup_time ≤ (timer_interrupt s).ticks)) := by
  rw [timer_interrupt_ticks]
  simp only [timer_interrupt, intr_set_level, intr_disable, thread_tick]
  rw [wake_loop_unblocked]

theorem timer_interrupt_status (s : Kernel) (x : Tid) :
    ((timer_interrupt s).threads x).status
      = if x ∈ s.sleep_list.takeWhile
            (fun t => decide ((s.threads t).wakeup_time ≤ (timer_interrupt s).ticks))
        then THREAD_READY else (s.threads x).status := by
  rw [timer_interrupt_ticks]
  simp only [timer_interrupt, intr_set_level, intr_disable, thread_tick]
  rw [wake_loop_status]

/-! ## The registry invariant is preserved -/

theorem Inv_timer_init (s0 : Kernel) : Inv (timer_init s0) :=
  ⟨by simp [timer_init], by simp [timer_init], by simp [timer_init]⟩

theorem not_mem_of_not_blocked {s : Kernel} (hs : Inv s) {t : Tid}
    (ht : (s.threads t).status ≠ THREAD_BLOCKED) : t ∉ s.sleep_list :=
  fun hmem => ht (hs.blocked t hmem)

theorem Inv_thread_sleep {s : Kernel} (hs : Inv s) (t : Tid) (d : Int)
    (ht : (s.threads t).status ≠ THREAD_BLOCKED) : Inv (thread_sleep s t d).state := by
  by_cases hidle : t = s.idle_thread
  · subst hidle
    rw [thread_sleep_idle]
    exact ⟨hs.sorted, hs.nodup, hs.blocked⟩
  · have hnot : t ∉ s.sleep_list := not_mem_of_not_blocked hs ht
    have hperm := list_insert_ordered_perm
      (fun a b => decide ((if a = t then d else (s.threads a).wakeup_time)
                            < (if b = t then d else (s.threads b).wakeup_time))) t s.sleep_list
    refine ⟨?_, ?_, ?_⟩
    · rw [thread_sleep_sleep_list s t d hidle]
      simp only [thread_sleep_wakeup_time s t _ d hidle]
      apply list_insert_ordered_sorted (fun a => if a = t then d else (s.threads a).wakeup_time)
      refine hs.sorted.imp_of_mem ?_
      intro a b ha hb hab
      have ha' : a ≠ t := fun e => hnot (e ▸ ha)
      have hb' : b ≠ t := fun e => hnot (e ▸ hb)
      simpa [ha', hb'] using hab
    · rw [thread_sleep_sleep_list s t d hidle, hperm.nodup_iff]
      exact List.nodup_cons.mpr ⟨hnot, hs.nodup⟩
    · intro x hx
      rw [thread_sleep_sleep_list s t d hidle, hperm.mem_iff] at hx
      rw [thread_sleep_status s t x d hidle]
      rcases List.mem_cons.mp hx with rfl | hx
      · simp
      · have hx' : x ≠ t := fun e => hnot (e ▸ hx)
        simpa [hx'] using hs.blocked x hx

theorem Inv_timer_interrupt {s : Kernel} (hs : Inv s) : Inv (timer_interrupt s) := by
  refine ⟨?_, ?_, ?_⟩
  · rw [timer_interrupt_sleep_list]
    simp only [timer_interrupt_wakeup_time]
    exact hs.sorted.sublist (List.dropWhile_sublist _)
  · rw [timer_interrupt_sleep_list]
    exact hs.nodup.sublist (List.dropWhile_sublist _)
  · intro x hx
    rw [timer_interrupt_sleep_list] at hx
    rw [timer_interrupt_status]
    have hnd := hs.nodup
    rw [← List.takeWhile_append_dropWhile
      (fun t => decide ((s.threads t).wakeup_time ≤ (timer_interrupt s).ticks)) s.sleep_list] at hnd
    have hdisj := List.disjoint_of_nodup_append hnd
    have hx2 : x ∉ s.sleep_list.takeWhile
        (fun t => decide ((s.threads t).wakeup_time ≤ (timer_interrupt s).ticks)) :=
      fun h => hdisj h hx
    rw [if_neg hx2]
    exact hs.blocked x ((List.dropWhile_sublist _).subset hx)

theorem Inv_step {s s' : Kernel} (hs : Inv s) (h : Step s s') : Inv s' := by
  cases h with
  | sleep t d ht => exact Inv_thread_sleep hs t d ht
  | tick => exact Inv_timer_interrupt hs
  | level l => exact ⟨hs.sorted, hs.nodup, hs.blocked⟩

theorem Inv_of_reachable {s : Kernel} (h : Reachable s) : Inv s := by
  induction h with
  | init s0 => exact Inv_timer_init s0
  | step _ hstep ih => exact Inv_step ih hstep

/-! ## Sortedness -/

theorem sleep_list_sorted_iff (s : Kernel) :
    sleep_list_sorted s ↔ s.sleep_list.Pairwise
      (fun a b => (s.threads a).wakeup_time ≤ (s.threads b).wakeup_time) := by
  unfold sleep_list_sorted deadlines
  rw [List.chain'_iff_pairwise, List.pairwise_map]

/-- C1. Sort invariant: in every state reachable from the empty registry of
`timer_init` by `thread_sleep` calls of threads that are not blocked and by
`timer_interrupt` wake passes, the deadlines of the sleep list satisfy
`deadline[i] ≤ deadline[i+1]` for all adjacent entries. -/
theorem sort_invariant (s : Kernel) (h : Reachable s) : sleep_list_sorted s :=
  (sleep_list_sorted_iff s).mpr (Inv_of_reachable h).sorted

set_option maxRecDepth 100000 in
/-- Witness of C1: after two insertions out of order and one wake pass the
state is reachable and its list is sorted. -/
theorem sort_invariant_witness : Reachable two_sleepers ∧ sleep_list_sorted two_sleepers :=
  have hr : Reachable two_sleepers :=
    Reachable.step
      (Reachable.step
        (Reachable.step (Reachable.init boot) (Step.sleep _ 1 110 (by decide)))
        (Step.sleep _ 2 105 (by decide)))
      (Step.tick _)
  ⟨hr, sort_invariant two_sleepers hr⟩

/-- C2. Wake dispatcher result: on a sorted sleep list, with `T` the tick
counter after the increment, `timer_interrupt` unblocks exactly the entries
with `wakeup_time ≤ T`, in list order, makes them ready, and leaves in the
list exactly the entries with `wakeup_time > T`, in their original order;
no other thread changes and no deadline changes. -/
theorem timer_interrupt_wakes_due (s : Kernel) (hs : sleep_list_sorted s) :
    (timer_interrupt s).unblocked
        = s.unblocked ++ s.sleep_list.filter
            (fun t => decide ((s.threads t).wakeup_time ≤ (timer_interrupt s).ticks))
      ∧ (timer_interrupt s).sleep_list
        = s.sleep_list.filter
            (fun t => decide ((timer_interrupt s).ticks < (s.threads t).wakeup_time))
      ∧ (∀ x, x ∈ s.sleep_list → (s.threads x).wakeup_time ≤ (timer_interrupt s).ticks →
          ((timer_interrupt s).threads x).status = THREAD_READY)
      ∧ (∀ x, ¬ (x ∈ s.sleep_list ∧ (s.threads x).wakeup_time ≤ (timer_interrupt s).ticks) →
          (timer_interrupt s).threads x = s.threads x) := by
  have hp := (sleep_list_sorted_iff s).mp hs
  have htake := takeWhile_le_eq_filter (fun t => (s.threads t).wakeup_time)
    (timer_interrupt s).ticks s.sleep_list hp
  have hdrop := dropWhile_le_eq_filter (fun t => (s.threads t).wakeup_time)
    (timer_interrupt s).ticks s.sleep_list hp
  refine ⟨?_, ?_, ?_, ?_⟩
  · rw [timer_interrupt_unblocked, htake]
  · rw [timer_interrupt_sleep_list, hdrop]
  · intro x hx hdue
    rw [timer_interrupt_status, htake, if_pos]
    exact List.mem_filter.mpr ⟨hx, by simpa using hdue⟩
  · intro x hx
    have hnot : x ∉ s.sleep_list.takeWhile
        (fun t => decide ((s.threads t).wakeup_time ≤ (timer_interrupt s).ticks)) := by
      rw [htake]
      intro hmem
      rcases List.mem_filter.mp hmem with ⟨h1, h2⟩
      exact hx ⟨h1, by simpa using h2⟩
    have h1 := timer_interrupt_status s x
    rw [if_neg hnot] at h1
    have h2 := timer_interrupt_wakeup_time s x
    cases hx' : (timer_interrupt s).threads x with
    | mk w st =>
      cases hy' : s.threads x with
      | mk w' st' =>
        rw [hx', hy'] at h1 h2
        simp only at h1 h2
        rw [h1, h2]

set_option maxRecDepth 100000 in
/-- Witness of C2: at tick 104 with deadlines 105, 105, 110, 120 the
interrupt that reaches tick 105 unblocks the two entries due, in list order,
and leaves the other two. -/
theorem timer_interrupt_wakes_due_witness :
    sleep_list_sorted four_sleepers
      ∧ (timer_interrupt four_sleepers).ticks = 105
      ∧ (timer_interrupt four_sleepers).unblocked = [3, 1]
      ∧ (timer_interrupt four_sleepers).sleep_list = [2, 4] := by
  have hs : sleep_list_sorted four_sleepers := by
    simp [sleep_list_sorted, deadlines, four_sleepers]
  have h := timer_interrupt_wakes_due four_sleepers hs
  refine ⟨hs, by decide, ?_, ?_⟩
  · rw [h.1]; decide
  · rw [h.2.1]; decide

end Pintos
namespace Pintos
open intr_level thread_status

theorem thread_sleep_threads_other (s : Kernel) (t x : Tid) (d : Int)
    (h : t ≠ s.idle_thread) (hx : x ≠ t) :
    (thread_sleep s t d).state.threads x = s.threads x := by
  rw [thread_sleep_blocked s t d h]
  simp [Outcome.state, thread_block, set_status, set_wakeup_time, intr_disable, hx]

/-- C5. Stable ordered insert: on a sorted sleep list `L`, for a caller `t`
that is not the idle thread and is not already linked into `L`,
`thread_sleep (D)` suspends `t` blocked with `wakeup_time = D` and the list
becomes (entries of `L` with `wakeup_time ≤ D`) ++ [t] ++ (entries of `L`
with `wakeup_time > D`); no other thread is altered. -/
theorem thread_sleep_stable_insert (s : Kernel) (t : Tid) (D : Int)
    (hs : sleep_list_sorted s) (hidle : t ≠ s.idle_thread) (hnew : t ∉ s.sleep_list) :
    ((thread_sleep s t D).state.threads t).wakeup_time = D
      ∧ ((thread_sleep s t D).state.threads t).status = THREAD_BLOCKED
      ∧ (thread_sleep s t D).state.sleep_list
        = s.sleep_list.filter (fun x => decide ((s.threads x).wakeup_time ≤ D)) ++ [t]
            ++ s.sleep_list.filter (fun x => decide (D < (s.threads x).wakeup_time))
      ∧ (∀ x, x ≠ t → (thread_sleep s t D).state.threads x = s.threads x)
      ∧ (∃ old_level, thread_sleep s t D = .blocked (thread_sleep s t D).state old_level) := by
  have hp := (sleep_list_sorted_iff s).mp hs
  refine ⟨?_, ?_, ?_, ?_, ?_⟩
  · rw [thread_sleep_wakeup_time s t t D hidle]; simp
  · rw [thread_sleep_status s t t D hidle]; simp
  · rw [thread_sleep_sleep_list s t D hidle, list_insert_ordered_eq]
    have hpred : ∀ x ∈ s.sleep_list,
        (!decide ((if t = t then D else (s.threads t).wakeup_time)
            < (if x = t then D else (s.threads x).wakeup_time)))
          = decide ((s.threads x).wakeup_time ≤ D) := by
      intro x hx
      have hx' : x ≠ t := fun e => hnew (e ▸ hx)
      by_cases hle : (s.threads x).wakeup_time ≤ D
      · have hlt : ¬ D < (s.threads x).wakeup_time := by omega
        simp [hx', hle, hlt]
      · have hlt : D < (s.threads x).wakeup_time := by omega
        simp [hx', hle, hlt]
    have htw : s.sleep_list.takeWhile (fun x =>
        !decide ((if t = t then D else (s.threads t).wakeup_time)
            < (if x = t then D else (s.threads x).wakeup_time)))
        = s.sleep_list.takeWhile (fun x => decide ((s.threads x).wakeup_time ≤ D)) := by
      have hgen : ∀ l : List Tid, (∀ x ∈ l, x ∈ s.sleep_list) →
          l.takeWhile (fun x =>
            !decide ((if t = t then D else (s.threads t).wakeup_time)
              < (if x = t then D else (s.threads x).wakeup_time)))
          = l.takeWhile (fun x => decide ((s.threads x).wakeup_time ≤ D)) := by
        intro l
        induction l with
        | nil => intro _; rfl
        | cons a l ih =>
          intro hsub
          rw [List.takeWhile_cons, List.takeWhile_cons, hpred a (hsub a (List.mem_cons_self a l)),
            ih (fun x hx => hsub x (List.mem_cons_of_mem a hx))]
      exact hgen _ (fun _ hx => hx)
    have hdw : s.sleep_list.dropWhile (fun x =>
        !decide ((if t = t then D else (s.threads t).wakeup_time)
            < (if x = t then D else (s.threads x).wakeup_time)))
        = s.sleep_list.dropWhile (fun x => decide ((s.threads x).wakeup_time ≤ D)) := by
      have hgen : ∀ l : List Tid, (∀ x ∈ l, x ∈ s.sleep_list) →
          l.dropWhile (fun x =>
            !decide ((if t = t then D else (s.threads t).wakeup_time)
              < (if x = t then D else (s.threads x).wakeup_time)))
          = l.dropWhile (fun x => decide ((s.threads x).wakeup_time ≤ D)) := by
        intro l
        induction l with
        | nil => intro _; rfl
        | cons a l ih =>
          intro hsub
          rw [List.dropWhile_cons, List.dropWhile_cons, hpred a (hsub a (List.mem_cons_self a l)),
            ih (fun x hx => hsub x (List.mem_cons_of_mem a hx))]
      exact hgen _ (fun _ hx => hx)
    rw [htw, hdw, takeWhile_le_eq_filter (fun x => (s.threads x).wakeup_time) D _ hp,
      dropWhile_le_eq_filter (fun x => (s.threads x).wakeup_time) D _ hp]
    simp
  · intro x hx
    exact thread_sleep_threads_other s t x D hidle hx
  · exact ⟨s.level, by rw [thread_sleep_blocked s t D hidle]; rfl⟩

set_option maxRecDepth 100000 in
/-- Witness of C5: thread 5 sleeps until 105 on the list with deadlines 105,
105, 110, 120 and is linked after the two entries with the equal deadline. -/
theorem thread_sleep_stable_insert_witness :
    sleep_list_sorted four_sleepers ∧ (5 : Tid) ≠ four_sleepers.idle_thread
      ∧ (5 : Tid) ∉ four_sleepers.sleep_list
      ∧ (thread_sleep four_sleepers 5 105).state.sleep_list = [3, 1, 5, 2, 4] := by
  have hs : sleep_list_sorted four_sleepers := by
    simp [sleep_list_sorted, deadlines, four_sleepers]
  have hi : (5 : Tid) ≠ four_sleepers.idle_thread := by decide
  have hn : (5 : Tid) ∉ four_sleepers.sleep_list := by decide
  have h := thread_sleep_stable_insert four_sleepers 5 105 hs hi hn
  refine ⟨hs, hi, hn, ?_⟩
  rw [h.2.2.1]; decide

/-- On a sorted list the wake pass unblocks the filter of the due entries and
leaves the filter of the others. -/
theorem timer_interrupt_wakes_due_aux (s : Kernel)
    (hp : s.sleep_list.Pairwise
      (fun a b => (s.threads a).wakeup_time ≤ (s.threads b).wakeup_time)) :
    (timer_interrupt s).unblocked
        = s.unblocked ++ s.sleep_list.filter
            (fun t => decide ((s.threads t).wakeup_time ≤ (timer_interrupt s).ticks))
      ∧ (timer_interrupt s).sleep_list
        = s.sleep_list.filter
            (fun t => decide ((timer_interrupt s).ticks < (s.threads t).wakeup_time)) := by
  constructor
  · rw [timer_interrupt_unblocked,
      takeWhile_le_eq_filter (fun t => (s.threads t).wakeup_time) _ _ hp]
  · rw [timer_interrupt_sleep_list,
      dropWhile_le_eq_filter (fun t => (s.threads t).wakeup_time) _ _ hp]


/-! ## No early wake -/

theorem thread_sleep_unblocked (s : Kernel) (t : Tid) (d : Int) :
    (thread_sleep s t d).state.unblocked = s.unblocked := by
  by_cases h : t = s.idle_thread
  · subst h; rw [thread_sleep_idle]; rfl
  · rw [thread_sleep_blocked s t d h]; rfl

/-- A linked entry with deadline `D` stays linked, with that deadline, and is
not unblocked as long as no timer interrupt reaches tick `D`. -/
theorem stays_linked {D : Int} {s1 s2 : Kernel} (t : Tid) (h : RunsBefore D s1 s2)
    (h1 : Inv s1) (hmem : t ∈ s1.sleep_list) (hwt : (s1.threads t).wakeup_time = D) :
    Inv s2 ∧ t ∈ s2.sleep_list ∧ (s2.threads t).wakeup_time = D
      ∧ ∃ w, s2.unblocked = s1.unblocked ++ w ∧ t ∉ w := by
  induction h with
  | refl => exact ⟨h1, hmem, hwt, [], by simp, by simp⟩
  | @sleep s' u d _ hu ih =>
    obtain ⟨hinv, hm, hw, w, hlog, hnw⟩ := ih
    have hut : t ≠ u := fun e => hu (e ▸ hinv.blocked t hm)
    refine ⟨Inv_thread_sleep hinv u d hu, ?_, ?_, w, ?_, hnw⟩
    · by_cases hidle : u = s'.idle_thread
      · subst hidle; rw [thread_sleep_idle]; exact hm
      · rw [thread_sleep_sleep_list s' u d hidle, (list_insert_ordered_perm _ u _).mem_iff]
        exact List.mem_cons_of_mem u hm
    · by_cases hidle : u = s'.idle_thread
      · subst hidle; rw [thread_sleep_idle]; exact hw
      · rw [thread_sleep_wakeup_time s' u t d hidle, if_neg hut]; exact hw
    · rw [thread_sleep_unblocked, hlog]
  | @tick s' _ hlt ih =>
    obtain ⟨hinv, hm, hw, w, hlog, hnw⟩ := ih
    have hnot : t ∉ s'.sleep_list.takeWhile
        (fun x => decide ((s'.threads x).wakeup_time ≤ (timer_interrupt s').ticks)) := by
      intro hin
      have := List.mem_takeWhile_imp hin
      simp only [decide_eq_true_eq] at this
      omega
    refine ⟨Inv_timer_interrupt hinv, ?_, ?_, ?_⟩
    · rw [timer_interrupt_sleep_list]
      have hsplit := List.takeWhile_append_dropWhile
        (fun x => decide ((s'.threads x).wakeup_time ≤ (timer_interrupt s').ticks)) s'.sleep_list
      rw [← hsplit] at hm
      rcases List.mem_append.mp hm with hin | hin
      · exact absurd hin hnot
      · exact hin
    · rw [timer_interrupt_wakeup_time]; exact hw
    · refine ⟨w ++ s'.sleep_list.takeWhile
        (fun x => decide ((s'.threads x).wakeup_time ≤ (timer_interrupt s').ticks)), ?_, ?_⟩
      · rw [timer_interrupt_unblocked, hlog, List.append_assoc]
      · intro hin
        rcases List.mem_append.mp hin with hin | hin
        · exact hnw hin
        · exact hnot hin
  | @level s' l _ ih =>
    obtain ⟨hinv, hm, hw, w, hlog, hnw⟩ := ih
    exact ⟨⟨hinv.sorted, hinv.nodup, hinv.blocked⟩, hm, hw, w, hlog, hnw⟩

/-- C3. No early wake: let a thread `t`, neither idle nor blocked, register
with `thread_sleep (D)` in a well-formed state.  Through every run of later
events in which each timer interrupt results in a tick value below `D`, `t`
stays in the sleep list, blocked, and is not unblocked.  The first timer
interrupt after that whose resulting tick value is at least `D` removes `t`
from the list and unblocks it. -/
theorem no_early_wake (s : Kernel) (t : Tid) (D : Int) (s2 : Kernel)
    (hs : Inv s) (hidle : t ≠ s.idle_thread) (ht : (s.threads t).status ≠ THREAD_BLOCKED)
    (hrun : RunsBefore D (thread_sleep s t D).state s2) :
    (t ∈ s2.sleep_list ∧ (s2.threads t).status = THREAD_BLOCKED
        ∧ ∃ w, s2.unblocked = (thread_sleep s t D).state.unblocked ++ w ∧ t ∉ w)
      ∧ (D ≤ (timer_interrupt s2).ticks →
          t ∉ (timer_interrupt s2).sleep_list
            ∧ ((timer_interrupt s2).threads t).status = THREAD_READY
            ∧ ∃ w, (timer_interrupt s2).unblocked = s2.unblocked ++ w ∧ t ∈ w) := by
  have hperm := list_insert_ordered_perm
    (fun a b => decide ((if a = t then D else (s.threads a).wakeup_time)
                          < (if b = t then D else (s.threads b).wakeup_time))) t s.sleep_list
  have hreg : t ∈ (thread_sleep s t D).state.sleep_list := by
    rw [thread_sleep_sleep_list s t D hidle, hperm.mem_iff]
    exact List.mem_cons_self t _
  have hwt : ((thread_sleep s t D).state.threads t).wakeup_time = D := by
    rw [thread_sleep_wakeup_time s t t D hidle]; simp
  obtain ⟨hinv, hm, hw, w, hlog, hnw⟩ :=
    stays_linked t hrun (Inv_thread_sleep hs t D ht) hreg hwt
  refine ⟨⟨hm, hinv.blocked t hm, w, hlog, hnw⟩, ?_⟩
  intro hdue
  have hdue' : (s2.threads t).wakeup_time ≤ (timer_interrupt s2).ticks := by omega
  have hres := timer_interrupt_wakes_due_aux s2 hinv.sorted
  refine ⟨?_, ?_, ?_⟩
  · rw [hres.2]
    intro hin
    have := (List.mem_filter.mp hin).2
    simp only [decide_eq_true_eq] at this
    omega
  · rw [timer_interrupt_status, if_pos]
    rw [takeWhile_le_eq_filter (fun x => (s2.threads x).wakeup_time) _ _ hinv.sorted]
    exact List.mem_filter.mpr ⟨hm, by simpa using hdue'⟩
  · refine ⟨_, hres.1, ?_⟩
    exact List.mem_filter.mpr ⟨hm, by simpa using hdue'⟩


theorem timer_ticks_fst (s : Kernel) : (timer_ticks s).1 = s.ticks := rfl

theorem timer_ticks_snd (s : Kernel) : (timer_ticks s).2 = s := rfl

theorem wrap64_of_int64 (x : Int) (h : int64 x) : wrap64 x = x := by
  unfold int64 at h
  unfold wrap64
  omega

/-- With interrupts enabled, a positive duration and no interrupt during the
call, `timer_sleep (d)` is `thread_sleep (ticks + d)`. -/
theorem timer_sleep_now (s : Kernel) (t : Tid) (d : Int) (hl : s.level = INTR_ON)
    (hd : 0 < d) (hr : int64 (s.ticks + d)) :
    timer_sleep s t d 0 0 = thread_sleep s t (s.ticks + d) := by
  have h0 : wrap64 (s.ticks - s.ticks) < d := by
    rw [sub_self, wrap64_of_int64 0 (by unfold int64; omega)]
    exact hd
  simp only [timer_sleep, timer_ticks_fst, timer_ticks_snd, timer_elapsed, intr_get_level, hl,
    Function.iterate_zero, id_eq, ne_eq, not_true_eq_false, if_false, h0, if_true,
    wrap64_of_int64 _ hr]

set_option maxRecDepth 100000 in
theorem A_asleep_eq : A_asleep = (thread_sleep boot 1 110).state := by
  unfold A_asleep
  rw [timer_sleep_now boot 1 10 rfl (by decide) (by unfold int64; decide)]
  rfl

set_option maxRecDepth 100000 in
theorem AB_asleep_eq :
    AB_asleep = intr_set_level
      (thread_sleep (intr_set_level (thread_sleep boot 1 110).state INTR_ON) 2 105).state
      INTR_ON := by
  unfold AB_asleep
  rw [A_asleep_eq,
    timer_sleep_now _ 2 5 rfl (by decide) (by unfold int64; decide)]
  rfl


theorem Inv_boot : Inv boot :=
  ⟨List.Pairwise.nil, List.nodup_nil, by intro t ht; cases ht⟩

set_option maxRecDepth 100000 in
theorem runs_to_AB_asleep : RunsBefore 110 (thread_sleep boot 1 110).state AB_asleep := by
  rw [AB_asleep_eq]
  exact RunsBefore.level INTR_ON
    (RunsBefore.sleep 2 105
      (RunsBefore.level INTR_ON (RunsBefore.refl (thread_sleep boot 1 110).state))
      (by decide))

set_option maxRecDepth 100000 in
/-- Witness of C3: A sleeps 10 and B sleeps 5 at tick 100.  A is still linked
and blocked after the nine interrupts that reach tick 109 and is unblocked by
the one that reaches 110; after the ticks up to 105 only B has been
unblocked, after the ticks up to 110 A has been unblocked too. -/
theorem no_early_wake_witness :
    RunsBefore 110 (thread_sleep boot 1 110).state (timer_interrupt^[9] AB_asleep)
      ∧ (1 ∈ (timer_interrupt^[9] AB_asleep).sleep_list
          ∧ ((timer_interrupt^[9] AB_asleep).threads 1).status = THREAD_BLOCKED)
      ∧ 1 ∉ (timer_interrupt^[10] AB_asleep).sleep_list
      ∧ AB_asleep.ticks = 100
      ∧ AB_asleep.sleep_list = [2, 1]
      ∧ (timer_interrupt^[4] AB_asleep).unblocked = []
      ∧ (timer_interrupt^[5] AB_asleep).ticks = 105
      ∧ (timer_interrupt^[5] AB_asleep).unblocked = [2]
      ∧ (timer_interrupt^[5] AB_asleep).sleep_list = [1]
      ∧ (timer_interrupt^[9] AB_asleep).unblocked = [2]
      ∧ (timer_interrupt^[10] AB_asleep).ticks = 110
      ∧ (timer_interrupt^[10] AB_asleep).unblocked = [2, 1] := by
  have h0 : RunsBefore 110 (thread_sleep boot 1 110).state AB_asleep := runs_to_AB_asleep
  have h1 : RunsBefore 110 (thread_sleep boot 1 110).state (timer_interrupt^[1] AB_asleep) :=
    RunsBefore.tick h0 (by decide!)
  have h2 : RunsBefore 110 (thread_sleep boot 1 110).state (timer_interrupt^[2] AB_asleep) :=
    RunsBefore.tick h1 (by decide!)
  have h3 : RunsBefore 110 (thread_sleep boot 1 110).state (timer_interrupt^[3] AB_asleep) :=
    RunsBefore.tick h2 (by decide!)
  have h4 : RunsBefore 110 (thread_sleep boot 1 110).state (timer_interrupt^[4] AB_asleep) :=
    RunsBefore.tick h3 (by decide!)
  have h5 : RunsBefore 110 (thread_sleep boot 1 110).state (timer_interrupt^[5] AB_asleep) :=
    RunsBefore.tick h4 (by decide!)
  have h6 : RunsBefore 110 (thread_sleep boot 1 110).state (timer_interrupt^[6] AB_asleep) :=
    RunsBefore.tick h5 (by decide!)
  have h7 : RunsBefore 110 (thread_sleep boot 1 110).state (timer_interrupt^[7] AB_asleep) :=
    RunsBefore.tick h6 (by decide!)
  have h8 : RunsBefore 110 (thread_sleep boot 1 110).state (timer_interrupt^[8] AB_asleep) :=
    RunsBefore.tick h7 (by decide!)
  have h9 : RunsBefore 110 (thread_sleep boot 1 110).state (timer_interrupt^[9] AB_asleep) :=
    RunsBefore.tick h8 (by decide!)
  have h := no_early_wake boot 1 110 (timer_interrupt^[9] AB_asleep) Inv_boot
    (by decide!) (by decide!) h9
  have hlast := h.2 (by decide!)
  exact ⟨h9, ⟨h.1.1, h.1.2.1⟩, hlast.1, by decide!, by decide!, by decide!, by decide!, by decide!,
    by decide!, by decide!, by decide!, by decide!⟩


/-! ## Wake order -/

theorem list_insert_ordered_sublist {α : Type} (less : α → α → Bool) (e : α) (l : List α) :
    List.Sublist l (list_insert_ordered less e l) := by
  rw [list_insert_ordered_eq]
  have h := List.Sublist.append (List.Sublist.refl (l.takeWhile (fun x => !less e x)))
    (List.sublist_cons_self e (l.dropWhile (fun x => !less e x)))
  rwa [List.takeWhile_append_dropWhile] at h

/-- In a sorted list the new element is linked after every entry whose key is
not greater. -/
theorem list_insert_ordered_after {α : Type} (key : α → Int) (e x : α) (l : List α)
    (h : l.Pairwise (fun a b => key a ≤ key b)) (hx : x ∈ l) (hle : key x ≤ key e) :
    List.Sublist [x, e] (list_insert_ordered (fun a b => decide (key a < key b)) e l) := by
  rw [list_insert_ordered_eq]
  have hpred : (fun y => !decide (key e < key y)) = (fun y => decide (key y ≤ key e)) := by
    funext y
    by_cases hy : key y ≤ key e
    · have : ¬ key e < key y := by omega
      simp [hy, this]
    · have : key e < key y := by omega
      simp [hy, this]
  rw [hpred, takeWhile_le_eq_filter key (key e) l h]
  have h1 : List.Sublist [x] (l.filter (fun y => decide (key y ≤ key e))) :=
    List.singleton_sublist.mpr (List.mem_filter.mpr ⟨hx, by simpa using hle⟩)
  have h2 : List.Sublist [e] (e :: l.dropWhile (fun y => decide (key y ≤ key e))) :=
    List.singleton_sublist.mpr (List.mem_cons_self e _)
  exact List.Sublist.append h1 h2

theorem pair_sublist_of_append {α : Type} (a b : α) (l1 l2 : List α)
    (h : List.Sublist [a, b] (l1 ++ l2)) (hb : b ∈ l1) (hnd : (l1 ++ l2).Nodup) :
    List.Sublist [a, b] l1 := by
  obtain ⟨r1, r2, hr, h1, h2⟩ := List.sublist_append_iff.mp h
  have hdisj := List.disjoint_of_nodup_append hnd
  have hb2 : b ∉ r2 := fun hin => hdisj hb (h2.subset hin)
  match r1, r2, hr, h1, hb2 with
  | [], r2, hr, _, hb2 =>
    simp only [List.nil_append] at hr
    subst hr
    exact absurd (by simp) hb2
  | [c], r2, hr, _, hb2 =>
    simp only [List.singleton_append, List.cons.injEq] at hr
    obtain ⟨_, hr⟩ := hr
    subst hr
    exact absurd (by simp) hb2
  | c :: d :: r, r2, hr, h1, _ =>
    simp only [List.cons_append, List.cons.injEq] at hr
    obtain ⟨hc, hd, hnil⟩ := hr
    have hr' : r = [] := by
      cases r with
      | nil => rfl
      | cons _ _ => simp at hnil
    subst hc hd hr'
    exact h1

/-- Over any number of timer interrupts the threads unblocked, in order,
followed by the entries left, are the sleep list at the start. -/
theorem ticks_split (k : Nat) (u : Kernel) :
    ∃ woken, (timer_interrupt^[k] u).unblocked = u.unblocked ++ woken
      ∧ woken ++ (timer_interrupt^[k] u).sleep_list = u.sleep_list
      ∧ ∀ x, ((timer_interrupt^[k] u).threads x).wakeup_time = (u.threads x).wakeup_time := by
  induction k with
  | zero => exact ⟨[], by simp, by simp, fun _ => rfl⟩
  | succ k ih =>
    obtain ⟨w, h1, h2, h3⟩ := ih
    rw [Function.iterate_succ_apply']
    refine ⟨w ++ (timer_interrupt^[k] u).sleep_list.takeWhile
      (fun t => decide (((timer_interrupt^[k] u).threads t).wakeup_time
        ≤ (timer_interrupt (timer_interrupt^[k] u)).ticks)), ?_, ?_, ?_⟩
    · rw [timer_interrupt_unblocked, h1, List.append_assoc]
    · rw [timer_interrupt_sleep_list, List.append_assoc, List.takeWhile_append_dropWhile, h2]
    · intro x
      rw [timer_interrupt_wakeup_time, h3]


theorem thread_sleep_ticks (s : Kernel) (t : Tid) (d : Int) :
    (thread_sleep s t d).state.ticks = s.ticks := by
  by_cases h : t = s.idle_thread
  · subst h; rw [thread_sleep_idle]; rfl
  · rw [thread_sleep_blocked s t d h]; rfl

theorem thread_sleep_idle_thread (s : Kernel) (t : Tid) (d : Int) :
    (thread_sleep s t d).state.idle_thread = s.idle_thread := by
  by_cases h : t = s.idle_thread
  · subst h; rw [thread_sleep_idle]; rfl
  · rw [thread_sleep_blocked s t d h]; rfl

/-- One registration through `timer_sleep`, followed by the switch to the next
thread. -/
theorem register_one (s : Kernel) (t : Tid) (d : Int) (hs : Inv s) (hl : s.level = INTR_ON)
    (hidle : t ≠ s.idle_thread) (ht : (s.threads t).status ≠ THREAD_BLOCKED)
    (hd : 0 < d) (hr : int64 (s.ticks + d)) :
    Inv (intr_set_level (timer_sleep s t d 0 0).state INTR_ON)
      ∧ (intr_set_level (timer_sleep s t d 0 0).state INTR_ON).ticks = s.ticks
      ∧ (intr_set_level (timer_sleep s t d 0 0).state INTR_ON).unblocked = s.unblocked
      ∧ (intr_set_level (timer_sleep s t d 0 0).state INTR_ON).idle_thread = s.idle_thread
      ∧ List.Sublist s.sleep_list
          (intr_set_level (timer_sleep s t d 0 0).state INTR_ON).sleep_list
      ∧ t ∈ (intr_set_level (timer_sleep s t d 0 0).state INTR_ON).sleep_list
      ∧ ((intr_set_level (timer_sleep s t d 0 0).state INTR_ON).threads t).wakeup_time
          = s.ticks + d
      ∧ (∀ x, x ≠ t →
          (intr_set_level (timer_sleep s t d 0 0).state INTR_ON).threads x = s.threads x)
      ∧ (∀ x ∈ s.sleep_list, (s.threads x).wakeup_time ≤ s.ticks + d →
          List.Sublist [x, t]
            (intr_set_level (timer_sleep s t d 0 0).state INTR_ON).sleep_list) := by
  rw [timer_sleep_now s t d hl hd hr]
  have hnot : t ∉ s.sleep_list := not_mem_of_not_blocked hs ht
  have hinv := Inv_thread_sleep hs t (s.ticks + d) ht
  have hlist := thread_sleep_sleep_list s t (s.ticks + d) hidle
  simp only [intr_set_level]
  refine ⟨⟨hinv.sorted, hinv.nodup, hinv.blocked⟩, thread_sleep_ticks s t _,
    thread_sleep_unblocked s t _, thread_sleep_idle_thread s t _, ?_, ?_, ?_, ?_, ?_⟩
  · rw [hlist]; exact list_insert_ordered_sublist _ t _
  · rw [hlist, (list_insert_ordered_perm _ t _).mem_iff]; exact List.mem_cons_self t _
  · rw [thread_sleep_wakeup_time s t t _ hidle]; simp
  · intro x hx; exact thread_sleep_threads_other s t x _ hidle hx
  · intro x hx hle
    rw [hlist]
    apply list_insert_ordered_after
      (fun a => if a = t then s.ticks + d else (s.threads a).wakeup_time) t x
    · refine hs.sorted.imp_of_mem ?_
      intro a b ha hb hab
      have ha' : a ≠ t := fun e => hnot (e ▸ ha)
      have hb' : b ≠ t := fun e => hnot (e ▸ hb)
      simpa [ha', hb'] using hab
    · exact hx
    · have hx' : x ≠ t := fun e => hnot (e ▸ hx)
      simpa [hx'] using hle

/-- What a sequence of registrations at one tick leaves in the sleep list. -/
theorem register_props (regs : List (Tid × Int)) :
    ∀ s : Kernel, Inv s → s.level = INTR_ON →
      (∀ p ∈ regs, p.1 ≠ s.idle_thread ∧ (s.threads p.1).status ≠ THREAD_BLOCKED) →
      (regs.map Prod.fst).Nodup →
      (∀ p ∈ regs, 0 < p.2 ∧ int64 (s.ticks + p.2)) →
      Inv (register s regs)
        ∧ (register s regs).ticks = s.ticks
        ∧ (register s regs).unblocked = s.unblocked
        ∧ List.Sublist s.sleep_list (register s regs).sleep_list
        ∧ (∀ x, x ∉ regs.map Prod.fst →
            ((register s regs).threads x).wakeup_time = (s.threads x).wakeup_time)
        ∧ (∀ p ∈ regs, p.1 ∈ (register s regs).sleep_list
            ∧ ((register s regs).threads p.1).wakeup_time = s.ticks + p.2)
        ∧ (∀ x ∈ s.sleep_list, ∀ p ∈ regs, (s.threads x).wakeup_time ≤ s.ticks + p.2 →
            List.Sublist [x, p.1] (register s regs).sleep_list)
        ∧ regs.Pairwise (fun a b => a.2 ≤ b.2 →
            List.Sublist [a.1, b.1] (register s regs).sleep_list) := by
  induction regs with
  | nil =>
    intro s hs _ _ _ _
    exact ⟨hs, rfl, rfl, List.Sublist.refl _, fun _ _ => rfl, by simp, by simp,
      List.Pairwise.nil⟩
  | cons p rest ih =>
    obtain ⟨t, d⟩ := p
    intro s hs hl hcall hnd hpos
    have ht := hcall (t, d) (List.mem_cons_self _ _)
    have hp := hpos (t, d) (List.mem_cons_self _ _)
    obtain ⟨q1, q2, q3, q4, q5, q6, q7, q8, q9⟩ :=
      register_one s t d hs hl ht.1 ht.2 hp.1 hp.2
    simp only [List.map_cons, List.nodup_cons] at hnd
    have hrest_ne : ∀ p ∈ rest, p.1 ≠ t := by
      intro p hp e
      exact hnd.1 (e ▸ List.mem_map_of_mem Prod.fst hp)
    have hnot : t ∉ s.sleep_list := not_mem_of_not_blocked hs ht.2
    obtain ⟨r1, r2, r3, r4, r5, r6, r7, r8⟩ :=
      ih (intr_set_level (timer_sleep s t d 0 0).state INTR_ON) q1 rfl
        (by
          intro p hp
          have hc := hcall p (List.mem_cons_of_mem _ hp)
          rw [q4, q8 p.1 (hrest_ne p hp)]
          exact hc)
        hnd.2
        (by
          intro p hp
          rw [q2]
          exact hpos p (List.mem_cons_of_mem _ hp))
    simp only [register]
    refine ⟨r1, r2.trans q2, r3.trans q3, q5.trans r4, ?_, ?_, ?_, ?_⟩
    · intro x hx
      simp only [List.map_cons, List.mem_cons, not_or] at hx
      rw [r5 x hx.2, q8 x hx.1]
    · intro p hp
      rcases List.mem_cons.mp hp with rfl | hp
      · exact ⟨r4.subset q6, by rw [r5 t hnd.1, q7]⟩
      · have := r6 p hp
        rw [q2] at this
        exact this
    · intro x hx p hp hle
      rcases List.mem_cons.mp hp with rfl | hp
      · exact (q9 x hx hle).trans r4
      · have hx' : x ≠ t := fun e => hnot (e ▸ hx)
        apply r7 x (q5.subset hx) p hp
        rw [q8 x hx', q2]
        exact hle
    · refine List.pairwise_cons.mpr ⟨?_, r8⟩
      intro b hb hle
      apply r7 t q6 b hb
      rw [q7, q2]
      simpa using hle


/-- C4, amended. Wake order: threads that are neither idle nor blocked call
`timer_sleep` with positive durations `d_i` one after the other at the same
tick, in a well-formed state with interrupts enabled, and no deadline
`start + d_i` overflows `int64_t`.  After any number of timer interrupts, the
threads unblocked since, in the order of the `thread_unblock` calls, have
non-decreasing deadlines, the deadline of each registered thread is the
registration tick plus its `d_i`, and of two registered threads with
`d_i ≤ d_j`, the one registered first is unblocked first (FIFO among equal
durations). -/
theorem wake_order (s : Kernel) (regs : List (Tid × Int)) (k : Nat)
    (hs : Inv s) (hl : s.level = INTR_ON)
    (hcall : ∀ p ∈ regs, p.1 ≠ s.idle_thread ∧ (s.threads p.1).status ≠ THREAD_BLOCKED)
    (hnd : (regs.map Prod.fst).Nodup)
    (hpos : ∀ p ∈ regs, 0 < p.2 ∧ int64 (s.ticks + p.2)) :
    ∃ woken, (timer_interrupt^[k] (register s regs)).unblocked = s.unblocked ++ woken
      ∧ woken.Nodup
      ∧ (∀ p ∈ regs,
          ((timer_interrupt^[k] (register s regs)).threads p.1).wakeup_time = s.ticks + p.2)
      ∧ woken.Pairwise (fun x y =>
          ((timer_interrupt^[k] (register s regs)).threads x).wakeup_time
            ≤ ((timer_interrupt^[k] (register s regs)).threads y).wakeup_time)
      ∧ regs.Pairwise (fun a b =>
          a.2 ≤ b.2 → b.1 ∈ woken → List.Sublist [a.1, b.1] woken) := by
  obtain ⟨r1, _, r3, _, _, r6, _, r8⟩ := register_props regs s hs hl hcall hnd hpos
  obtain ⟨woken, w1, w2, w3⟩ := ticks_split k (register s regs)
  have hnodup : (woken ++ (timer_interrupt^[k] (register s regs)).sleep_list).Nodup := by
    rw [w2]; exact r1.nodup
  refine ⟨woken, by rw [w1, r3], (List.nodup_append.mp hnodup).1, ?_, ?_, ?_⟩
  · intro p hp
    rw [w3, (r6 p hp).2]
  · simp only [w3]
    have hsorted := r1.sorted
    rw [← w2] at hsorted
    exact (List.pairwise_append.mp hsorted).1
  · refine r8.imp ?_
    intro a b hab hle hb
    have hsub := hab hle
    rw [← w2] at hsub
    exact pair_sublist_of_append a.1 b.1 woken _ hsub hb hnodup

set_option maxRecDepth 100000 in
/-- Witness of C4 amended: A then B both call `timer_sleep (10)` at tick 100; nothing
is unblocked by the interrupts up to tick 109 and the interrupt that reaches
tick 110 unblocks both, A before B. -/
theorem wake_order_witness :
    (∃ woken, (timer_interrupt^[10] (register boot [(1, 10), (2, 10)])).unblocked
        = boot.unblocked ++ woken
      ∧ woken.Nodup
      ∧ (∀ p ∈ [((1 : Tid), (10 : Int)), (2, 10)],
          ((timer_interrupt^[10] (register boot [(1, 10), (2, 10)])).threads p.1).wakeup_time
            = boot.ticks + p.2)
      ∧ woken.Pairwise (fun x y =>
          ((timer_interrupt^[10] (register boot [(1, 10), (2, 10)])).threads x).wakeup_time
            ≤ ((timer_interrupt^[10] (register boot [(1, 10), (2, 10)])).threads y).wakeup_time)
      ∧ [((1 : Tid), (10 : Int)), (2, 10)].Pairwise (fun a b =>
          a.2 ≤ b.2 → b.1 ∈ woken → List.Sublist [a.1, b.1] woken))
      ∧ AB_equal.sleep_list = [1, 2]
      ∧ (timer_interrupt^[9] AB_equal).ticks = 109
      ∧ (timer_interrupt^[9] AB_equal).unblocked = []
      ∧ (timer_interrupt^[10] AB_equal).ticks = 110
      ∧ (timer_interrupt^[10] AB_equal).unblocked = [1, 2] :=
  ⟨wake_order boot [(1, 10), (2, 10)] 10 Inv_boot rfl (by decide) (by decide)
      (by
        intro p hp
        simp only [List.mem_cons, List.mem_singleton, List.not_mem_nil, or_false] at hp
        rcases hp with rfl | rfl <;> exact ⟨by decide, by unfold int64; decide⟩),
    by decide!, by decide!, by decide!, by decide!, by decide!⟩


set_option maxRecDepth 100000 in
/-- C4, as stated, fails: at tick 100 thread 1 calls `timer_sleep (2^63 - 1)`
and then thread 2 calls `timer_sleep (10)`, both durations positive.  The
deadline `start + ticks` of thread 1 wraps around to a negative value, so the
interrupt that reaches tick 101 unblocks thread 1, and thread 2, with the
smaller duration, is unblocked after it, at tick 110. -/
theorem wake_order_overflow :
    (10 : Int) < 9223372036854775807
      ∧ (overflow_pair.threads 1).wakeup_time = -9223372036854775709
      ∧ (overflow_pair.threads 2).wakeup_time = 110
      ∧ overflow_pair.sleep_list = [1, 2]
      ∧ (timer_interrupt^[1] overflow_pair).ticks = 101
      ∧ (timer_interrupt^[1] overflow_pair).unblocked = [1]
      ∧ (timer_interrupt^[10] overflow_pair).unblocked = [1, 2] := by
  refine ⟨?_, ?_, ?_, ?_, ?_, ?_, ?_⟩ <;> decide!

/-! ## Tick arithmetic -/

theorem wrap64_congr (x : Int) : ∃ q : Int, wrap64 x = x + q * 2 ^ 64 := by
  refine ⟨-((x + 2 ^ 63) / 2 ^ 64), ?_⟩
  unfold wrap64
  omega

theorem iterate_ticks_congr (n : Nat) (s : Kernel) :
    ∃ q : Int, (timer_interrupt^[n] s).ticks = s.ticks + n + q * 2 ^ 64 := by
  induction n with
  | zero => exact ⟨0, by simp⟩
  | succ n ih =>
    obtain ⟨q, hq⟩ := ih
    obtain ⟨q', hq'⟩ := wrap64_congr ((timer_interrupt^[n] s).ticks + 1)
    rw [Function.iterate_succ_apply', timer_interrupt_ticks, hq', hq]
    refine ⟨q + q', ?_⟩
    push_cast
    ring

theorem iterate_ticks (n : Nat) (s : Kernel) (hs : int64 s.ticks) (hn : s.ticks + n < 2 ^ 63) :
    (timer_interrupt^[n] s).ticks = s.ticks + n := by
  induction n with
  | zero => simp
  | succ n ih =>
    have hn' : s.ticks + (n : Int) < 2 ^ 63 := by push_cast at hn; omega
    rw [Function.iterate_succ_apply', timer_interrupt_ticks, ih hn']
    unfold int64 at hs
    unfold wrap64
    push_cast at hn ⊢
    omega

theorem iterate_level (n : Nat) (s : Kernel) : (timer_interrupt^[n] s).level = s.level := by
  induction n with
  | zero => rfl
  | succ n ih => rw [Function.iterate_succ_apply', timer_interrupt_level, ih]

theorem iterate_idle_thread (n : Nat) (s : Kernel) :
    (timer_interrupt^[n] s).idle_thread = s.idle_thread := by
  induction n with
  | zero => rfl
  | succ n ih => rw [Function.iterate_succ_apply', timer_interrupt_idle_thread, ih]

/-- The ticks elapsed over `n` interrupts, as `timer_elapsed` computes them. -/
theorem elapsed_over_ticks (n : Nat) (s : Kernel) (hn : (n : Int) < 2 ^ 63) :
    (timer_elapsed (timer_interrupt^[n] s) s.ticks).1 = n := by
  obtain ⟨q, hq⟩ := iterate_ticks_congr n s
  simp only [timer_elapsed, timer_ticks_fst, hq]
  unfold wrap64
  omega

/-- C6. Zero or past-deadline sleep: when `d ≤ 0`, or more generally when the
ticks elapsed between the two readings of the counter are already at least
`d`, `timer_sleep (d)` does not call `thread_sleep`.  With interrupts enabled
on entry it returns, in the state left by the `n` timer interrupts delivered
meanwhile (the entry state itself when there were none); with interrupts
disabled its assertion stops it in the entry state.  Either way the caller is
neither linked into the sleep list nor blocked. -/
theorem timer_sleep_no_wait (s : Kernel) (t : Tid) (d : Int) (n m : Nat)
    (h : (d ≤ 0 ∧ (n : Int) < 2 ^ 63)
          ∨ d ≤ (timer_elapsed (timer_interrupt^[n] s) s.ticks).1) :
    timer_sleep s t d n m
        = (if s.level = INTR_ON then .returned (timer_interrupt^[n] s) else .panicked s)
      ∧ (s.level = INTR_ON → n = 0 → timer_sleep s t d n m = .returned s) := by
  have hge : ¬ (timer_elapsed (timer_interrupt^[n] s) s.ticks).1 < d := by
    rcases h with ⟨hd, hn⟩ | h
    · rw [elapsed_over_ticks n s hn]
      have : (0 : Int) ≤ n := Int.ofNat_nonneg n
      omega
    · omega
  have hmain : timer_sleep s t d n m
      = (if s.level = INTR_ON then .returned (timer_interrupt^[n] s) else .panicked s) := by
    by_cases hl : s.level = INTR_ON
    · simp only [timer_sleep, timer_ticks_fst, timer_ticks_snd, intr_get_level, hl, ne_eq,
        not_true_eq_false, if_false, hge, if_true]
      rfl
    · simp only [timer_sleep, timer_ticks_snd, intr_get_level, hl, ne_eq, not_false_eq_true,
        if_true, if_false]
  refine ⟨hmain, ?_⟩
  intro hl hn
  subst hn
  rw [hmain, if_pos hl]
  rfl

set_option maxRecDepth 100000 in
/-- Witness of C6: `timer_sleep (0)` and `timer_sleep (-3)` at tick 100, and
`timer_sleep (2)` when three ticks pass before the test, return with the
sleep list as the interrupts left it. -/
theorem timer_sleep_no_wait_witness :
    timer_sleep boot 1 0 0 0 = .returned boot
      ∧ timer_sleep boot 1 (-3) 0 0 = .returned boot
      ∧ timer_sleep AB_asleep 3 2 3 0
          = (if AB_asleep.level = INTR_ON then .returned (timer_interrupt^[3] AB_asleep)
             else .panicked AB_asleep)
      ∧ (timer_sleep AB_asleep 3 2 3 0).returns = true
      ∧ (timer_sleep AB_asleep 3 2 3 0).state.sleep_list = [2, 1] :=
  ⟨(timer_sleep_no_wait boot 1 0 0 0 (Or.inl ⟨by decide, by decide⟩)).2 rfl rfl,
    (timer_sleep_no_wait boot 1 (-3) 0 0 (Or.inl ⟨by decide, by decide⟩)).2 rfl rfl,
    (timer_sleep_no_wait AB_asleep 3 2 3 0 (Or.inr (by decide!))).1,
    by decide!, by decide!⟩

/-! ## Idle caller -/

/-- C7, as stated, fails: entered with the idle thread as the current thread
at tick 100, `thread_sleep` and `timer_sleep (10)` return normally, without a
panic. -/
theorem idle_caller_not_fatal :
    (thread_sleep boot boot.idle_thread 110).halts = false
      ∧ (thread_sleep boot boot.idle_thread 110).returns = true
      ∧ (timer_sleep boot boot.idle_thread 10 0 0).halts = false
      ∧ (timer_sleep boot boot.idle_thread 10 0 0).returns = true
      ∧ (timer_sleep boot boot.idle_thread 10 0 0).state.sleep_list = [] := by
  refine ⟨rfl, rfl, ?_, ?_, ?_⟩ <;> decide!

/-- C7, amended. Entered with the idle thread as the current thread,
`thread_sleep` prints "now idle" and returns to its caller: no panic, and the
sleep list, the threads, the tick counter and the interrupt level are as on
entry.  A `timer_sleep` call of the idle thread halts exactly when interrupts
are disabled on entry (its own assertion), and never leaves the caller
blocked. -/
theorem idle_caller_returns (s : Kernel) (D d : Int) (n m : Nat) :
    thread_sleep s s.idle_thread D
        = .returned { s with console := s.console ++ ["now idle"] }
      ∧ ((timer_sleep s s.idle_thread d n m).halts = true ↔ s.level = INTR_OFF)
      ∧ ((timer_sleep s s.idle_thread d n m).returns = true ↔ s.level = INTR_ON) := by
  have h1 : thread_sleep s s.idle_thread D
      = .returned { s with console := s.console ++ ["now idle"] } := by
    simp [thread_sleep]
  have hidle : s.idle_thread
      = (timer_interrupt^[m] (timer_interrupt^[n] s)).idle_thread := by
    rw [iterate_idle_thread, iterate_idle_thread]
  refine ⟨h1, ?_, ?_⟩
  · cases hl : s.level with
    | INTR_OFF =>
      simp [timer_sleep, timer_ticks_snd, intr_get_level, hl, Outcome.halts]
    | INTR_ON =>
      simp only [timer_sleep, timer_ticks_fst, timer_ticks_snd, intr_get_level, hl, ne_eq,
        not_true_eq_false, if_false, timer_elapsed]
      split
      · rw [hidle, thread_sleep_idle]
        simp [Outcome.halts]
      · simp [Outcome.halts]
  · cases hl : s.level with
    | INTR_OFF =>
      simp [timer_sleep, timer_ticks_snd, intr_get_level, hl, Outcome.returns]
    | INTR_ON =>
      simp only [timer_sleep, timer_ticks_fst, timer_ticks_snd, intr_get_level, hl, ne_eq,
        not_true_eq_false, if_false, timer_elapsed]
      split
      · rw [hidle, thread_sleep_idle]
        simp [Outcome.returns]
      · simp [Outcome.returns]

/-! ## Elapsed time and the tick counter -/

/-- C8, as stated, fails: at tick 100, `timer_elapsed (101)` is negative. -/
theorem timer_elapsed_negative : (timer_elapsed boot 101).1 = -1 := by
  decide!

/-- C8, amended. `timer_elapsed (timer_ticks ())` with no timer interrupt in
between is 0; for a fixed `t` in the range of tick values, `0 ≤ t < 2^63`,
`timer_elapsed (t)` is `ticks - t`, is non-negative when `t ≤ ticks` (`t` was
returned by `timer_ticks` earlier), and does not decrease across `n` further
timer interrupts, as long as the counter does not overflow. -/
theorem timer_elapsed_props (s : Kernel) (t : Int) (n : Nat)
    (hs : 0 ≤ s.ticks) (hn : s.ticks + n < 2 ^ 63) (ht : 0 ≤ t) (ht' : t < 2 ^ 63) :
    (timer_elapsed (timer_ticks s).2 (timer_ticks s).1).1 = 0
      ∧ (timer_elapsed s t).1 = s.ticks - t
      ∧ (t ≤ s.ticks → 0 ≤ (timer_elapsed s t).1)
      ∧ (timer_elapsed s t).1 ≤ (timer_elapsed (timer_interrupt^[n] s) t).1 := by
  have hnn : (0 : Int) ≤ n := Int.ofNat_nonneg n
  have hs64 : int64 s.ticks := by unfold int64; omega
  have h1 : (timer_elapsed s t).1 = s.ticks - t := by
    simp only [timer_elapsed, timer_ticks_fst]
    exact wrap64_of_int64 _ (by unfold int64; omega)
  have h2 : (timer_elapsed (timer_interrupt^[n] s) t).1 = s.ticks + n - t := by
    simp only [timer_elapsed, timer_ticks_fst, iterate_ticks n s hs64 hn]
    exact wrap64_of_int64 _ (by unfold int64; omega)
  refine ⟨?_, h1, ?_, ?_⟩
  · simp only [timer_elapsed, timer_ticks_fst, timer_ticks_snd, sub_self]
    exact wrap64_of_int64 0 (by unfold int64; omega)
  · intro hle; rw [h1]; omega
  · rw [h1, h2]; omega

set_option maxRecDepth 100000 in
/-- Witness of C8 amended: at tick 100, `timer_elapsed (95)` is 5 and is 8
after three more ticks. -/
theorem timer_elapsed_props_witness :
    (timer_elapsed boot 95).1 = 5 ∧ (timer_elapsed (timer_interrupt^[3] boot) 95).1 = 8
      ∧ (timer_elapsed boot 95).1 ≤ (timer_elapsed (timer_interrupt^[3] boot) 95).1 :=
  ⟨by decide!, by decide!,
    (timer_elapsed_props boot 95 3 (by decide) (by decide) (by decide) (by decide)).2.2.2⟩

/-- C9. Tick counter: absent 64-bit overflow, a `timer_interrupt` increases
the tick counter by exactly one; `timer_ticks`, `timer_elapsed`,
`thread_sleep` (also its resumption), `timer_sleep` with no interrupt during
the call, and the wake loop leave it unchanged; so the value `timer_ticks`
returns does not decrease over any event. -/
theorem tick_counter (s : Kernel) (c : Tid) (t D d : Int) (l : intr_level)
    (hs : int64 s.ticks) (hmax : s.ticks + 1 < 2 ^ 63) :
    (timer_interrupt s).ticks = s.ticks + 1
      ∧ (timer_ticks s).2.ticks = s.ticks
      ∧ (timer_elapsed s t).2.ticks = s.ticks
      ∧ (thread_sleep s c D).state.ticks = s.ticks
      ∧ (thread_sleep_resume s l).ticks = s.ticks
      ∧ (timer_sleep s c d 0 0).state.ticks = s.ticks
      ∧ (wake_loop s.sleep_list s).ticks = s.ticks
      ∧ (∀ s', Step s s' → (timer_ticks s).1 ≤ (timer_ticks s').1) := by
  have htick : (timer_interrupt s).ticks = s.ticks + 1 := by
    rw [timer_interrupt_ticks]
    exact wrap64_of_int64 _ (by unfold int64 at *; omega)
  refine ⟨htick, rfl, rfl, thread_sleep_ticks s c D, rfl, ?_, wake_loop_ticks _ s, ?_⟩
  · simp only [timer_sleep, timer_ticks_fst, timer_ticks_snd, Function.iterate_zero, id_eq,
      timer_elapsed]
    split
    · rfl
    · split
      · exact thread_sleep_ticks s c _
      · rfl
  · intro s' hstep
    simp only [timer_ticks_fst]
    cases hstep with
    | sleep u e _ => rw [thread_sleep_ticks]
    | tick => rw [htick]; omega
    | level l' => exact le_refl _

set_option maxRecDepth 100000 in
/-- Witness of C9: the interrupt at tick 100 moves the counter to 101. -/
theorem tick_counter_witness :
    int64 boot.ticks ∧ boot.ticks + 1 < 2 ^ 63 ∧ (timer_interrupt boot).ticks = 101 :=
  ⟨by unfold int64; decide, by decide,
    (tick_counter boot 1 0 0 0 INTR_ON (by unfold int64; decide) (by decide)).1⟩


/-! ## Calibration refinement -/

theorem shiftRight_pow_ten (k : Nat) (hk : 10 ≤ k) : (2 ^ k) >>> 10 = 2 ^ (k - 10) := by
  rw [Nat.shiftRight_eq_div_pow, Nat.pow_div hk (by decide)]

theorem shiftRight_pow_one (j : Nat) : (2 ^ (j + 1)) >>> 1 = 2 ^ j := by
  rw [Nat.shiftRight_eq_div_pow, pow_succ]
  simp

/-- With `i` bit positions left above `high_bit >> 10`, the refinement loop
tests exactly those `i` positions, from the highest down, and ends. -/
theorem calibrate_refine_from (too_many_loops : Nat → Bool) (k : Nat) (hk : 10 ≤ k) (i : Nat) :
    ∀ (fuel loops_per_tick : Nat) (tested : List Nat), i < fuel →
      ∃ r, calibrate_refine too_many_loops (2 ^ k) fuel (2 ^ (k - 10 + i)) loops_per_tick tested
        = .done (r, tested ++ (List.range i).reverse.map (fun j => 2 ^ (k - 10 + j + 1))) := by
  induction i with
  | zero =>
    intro fuel lpt tested hf
    obtain ⟨f, rfl⟩ : ∃ f, fuel = f + 1 := ⟨fuel - 1, by omega⟩
    refine ⟨lpt, ?_⟩
    simp [calibrate_refine, shiftRight_pow_ten k hk]
  | succ i ih =>
    intro fuel lpt tested hf
    obtain ⟨f, rfl⟩ : ∃ f, fuel = f + 1 := ⟨fuel - 1, by omega⟩
    have hne : (2 : Nat) ^ (k - 10 + (i + 1)) ≠ 2 ^ (k - 10) := by
      intro h
      have := Nat.pow_right_injective (le_refl 2) h
      omega
    obtain ⟨r, hr⟩ := ih f
      (if !too_many_loops (2 ^ k ||| 2 ^ (k - 10 + (i + 1))) then lpt ||| 2 ^ (k - 10 + (i + 1))
       else lpt)
      (tested ++ [2 ^ (k - 10 + (i + 1))]) (by omega)
    refine ⟨r, ?_⟩
    rw [calibrate_refine, shiftRight_pow_ten k hk, if_pos hne]
    have hs : (2 ^ (k - 10 + (i + 1))) >>> 1 = 2 ^ (k - 10 + i) :=
      shiftRight_pow_one (k - 10 + i)
    rw [hs, hr]
    simp [List.range_succ]
    omega

/-- C10, what the code does. Once the doubling phase has fixed the high bit
`2^k`, `k ≥ 10`, the refinement loop ends and tests nine bit positions below
the high bit, `2^(k-1)` down to `2^(k-9)`, whatever the measurements of
`too_many_loops` are; not eight. -/
theorem refinement_tests_nine_bits (too_many_loops : Nat → Bool) (k fuel : Nat)
    (hk : 10 ≤ k) (hf : 10 ≤ fuel) :
    ∃ r, calibrate_refine too_many_loops (2 ^ k) fuel ((2 ^ k) >>> 1) (2 ^ k) []
      = .done (r, [2 ^ (k - 1), 2 ^ (k - 2), 2 ^ (k - 3), 2 ^ (k - 4), 2 ^ (k - 5),
          2 ^ (k - 6), 2 ^ (k - 7), 2 ^ (k - 8), 2 ^ (k - 9)]) := by
  obtain ⟨r, hr⟩ := calibrate_refine_from too_many_loops k hk 9 fuel (2 ^ k) [] (by omega)
  refine ⟨r, ?_⟩
  have h1 : (2 ^ k) >>> 1 = 2 ^ (k - 10 + 9) := by
    obtain ⟨j, rfl⟩ : ∃ j, k = j + 1 := ⟨k - 1, by omega⟩
    rw [shiftRight_pow_one]
    congr 1
    omega
  rw [h1, hr]
  have e : ∀ a, a ≤ 9 → 1 ≤ a → k - 10 + (9 - a) + 1 = k - a := by
    intro a h9 h1
    omega
  have e1 := e 1 (by decide) (by decide)
  have e2 := e 2 (by decide) (by decide)
  have e3 := e 3 (by decide) (by decide)
  have e4 := e 4 (by decide) (by decide)
  have e5 := e 5 (by decide) (by decide)
  have e6 := e 6 (by decide) (by decide)
  have e7 := e 7 (by decide) (by decide)
  have e8 := e 8 (by decide) (by decide)
  have e9 := e 9 (by decide) (by decide)
  simp only [Nat.reduceSub] at e1 e2 e3 e4 e5 e6 e7 e8 e9
  simp [List.range_succ, e1, e2, e3, e4, e5, e6, e7, e8, e9]
  omega

/-- Witness of C10: when the first doubling trial already takes too long the
high bit is `2^10`, and the refinement tests the nine positions 512 down
to 2. -/
theorem refinement_tests_nine_bits_witness :
    (∃ r, calibrate_refine (fun _ => true) (2 ^ 10) 32 ((2 ^ 10) >>> 1) (2 ^ 10) []
      = .done (r, [2 ^ (10 - 1), 2 ^ (10 - 2), 2 ^ (10 - 3), 2 ^ (10 - 4), 2 ^ (10 - 5),
          2 ^ (10 - 6), 2 ^ (10 - 7), 2 ^ (10 - 8), 2 ^ (10 - 9)]))
      ∧ timer_calibrate (fun _ => true) 32
          = .done (1024, [512, 256, 128, 64, 32, 16, 8, 4, 2])
      ∧ [512, 256, 128, 64, 32, 16, 8, 4, 2].length = 9 :=
  ⟨refinement_tests_nine_bits (fun _ => true) 10 32 (by decide) (by decide),
    by decide!, by decide⟩


/-! ## One position per thread -/

/-- The state `two_sleepers` is reachable. -/
theorem two_sleepers_reachable : Reachable two_sleepers :=
  Reachable.step
    (Reachable.step
      (Reachable.step (Reachable.init boot) (Step.sleep _ 1 110 (by decide)))
      (Step.sleep _ 2 105 (by decide)))
    (Step.tick _)

/-- C12. At most one registry position per thread: in every state reachable
from the empty registry of `timer_init` by `thread_sleep` calls of threads
that are not blocked (the running thread), by `timer_interrupt` wake passes
and by changes of the interrupt level, no thread occurs in the sleep list
more than once and every thread in the list is blocked. -/
theorem one_position_per_thread (s : Kernel) (h : Reachable s) :
    s.sleep_list.Nodup
      ∧ (∀ t, s.sleep_list.count t ≤ 1)
      ∧ (∀ t ∈ s.sleep_list, (s.threads t).status = THREAD_BLOCKED) := by
  have hinv := Inv_of_reachable h
  exact ⟨hinv.nodup, fun t => List.nodup_iff_count_le_one.mp hinv.nodup t, hinv.blocked⟩

set_option maxRecDepth 100000 in
/-- Witness of C12: after two registrations and one wake pass the list holds
threads 2 and 1 once each, both blocked. -/
theorem one_position_per_thread_witness :
    Reachable two_sleepers ∧ two_sleepers.sleep_list = [2, 1]
      ∧ two_sleepers.sleep_list.Nodup
      ∧ (two_sleepers.threads 2).status = THREAD_BLOCKED
      ∧ (two_sleepers.threads 1).status = THREAD_BLOCKED :=
  have h := one_position_per_thread two_sleepers two_sleepers_reachable
  ⟨two_sleepers_reachable, by decide!, h.1, h.2.2 2 (by decide!), h.2.2 1 (by decide!)⟩

/-! ## Interrupt level -/

/-- C13. Interrupt level is restored.  `thread_sleep`: on the idle path the
state returned has the level of entry; on the insert-and-block path the
saved `old_level` is the level of entry, so that whatever the state in which
the caller runs again, the level after `intr_set_level (old_level)`, when
the call returns, is the level of entry.  `timer_ticks` and `timer_interrupt`
leave the level they found. -/
theorem interrupt_level_restored (s : Kernel) (t : Tid) (D : Int) :
    (t = s.idle_thread → ∃ s', thread_sleep s t D = .returned s' ∧ s'.level = s.level)
      ∧ (t ≠ s.idle_thread → ∃ s', thread_sleep s t D = .blocked s' s.level
          ∧ ∀ s'', (thread_sleep_resume s'' s.level).level = s.level)
      ∧ (timer_ticks s).2.level = s.level
      ∧ (timer_interrupt s).level = s.level := by
  refine ⟨?_, ?_, rfl, timer_interrupt_level s⟩
  · intro h
    subst h
    exact ⟨_, thread_sleep_idle s D, rfl⟩
  · intro h
    exact ⟨_, thread_sleep_blocked s t D h, fun _ => rfl⟩

/-- Witness of C13: at tick 100 with interrupts enabled, the idle thread
returns with interrupts enabled, and thread 1 is suspended with the saved
level `INTR_ON`, which it sets back when it runs again, here after the
interrupt handler has left interrupts disabled. -/
theorem interrupt_level_restored_witness :
    (∃ s', thread_sleep boot 0 110 = .returned s' ∧ s'.level = INTR_ON)
      ∧ (∃ s', thread_sleep boot 1 110 = .blocked s' INTR_ON
          ∧ ∀ s'', (thread_sleep_resume s'' INTR_ON).level = INTR_ON)
      ∧ (thread_sleep_resume (intr_disable (thread_sleep boot 1 110).state).2 INTR_ON).level
          = INTR_ON :=
  ⟨(interrupt_level_restored boot 0 110).1 rfl,
    (interrupt_level_restored boot 1 110).2.1 (by decide), rfl⟩

/-- C14. Interrupts-enabled precondition: called with interrupts disabled,
`timer_sleep` fails its assertion for every duration; the kernel halts in the
state of entry, so the sleep list, every `wakeup_time` and every thread
status are as they were. -/
theorem timer_sleep_asserts_interrupts (s : Kernel) (t : Tid) (d : Int) (n m : Nat)
    (hl : s.level = INTR_OFF) :
    timer_sleep s t d n m = .panicked s
      ∧ (timer_sleep s t d n m).halts = true
      ∧ (timer_sleep s t d n m).state.sleep_list = s.sleep_list
      ∧ (timer_sleep s t d n m).state.threads = s.threads := by
  have h : timer_sleep s t d n m = .panicked s := by
    simp [timer_sleep, timer_ticks_snd, intr_get_level, hl]
  rw [h]
  exact ⟨rfl, rfl, rfl, rfl⟩

/-- Witness of C14: at tick 100 with interrupts disabled, `timer_sleep (10)`
halts and thread 1 is not linked. -/
theorem timer_sleep_asserts_interrupts_witness :
    (intr_set_level boot INTR_OFF).level = INTR_OFF
      ∧ timer_sleep (intr_set_level boot INTR_OFF) 1 10 0 0
          = .panicked (intr_set_level boot INTR_OFF)
      ∧ (timer_sleep (intr_set_level boot INTR_OFF) 1 10 0 0).state.sleep_list = [] :=
  have h := timer_sleep_asserts_interrupts (intr_set_level boot INTR_OFF) 1 10 0 0 rfl
  ⟨rfl, h.1, h.2.2.1⟩


/-! ## Wake scan bound -/

theorem wake_scan_state (l : List Tid) (s : Kernel) : (wake_scan l s).state = wake_loop l s := by
  induction l generalizing s with
  | nil => rfl
  | cons t rest ih =>
    simp only [wake_scan, wake_loop]
    split
    · rfl
    · exact ih _

theorem wake_scan_removed (l : List Tid) (s : Kernel) :
    (wake_scan l s).removed
      = l.takeWhile (fun t => decide ((s.threads t).wakeup_time ≤ s.ticks)) := by
  induction l generalizing s with
  | nil => rfl
  | cons t rest ih =>
    simp only [wake_scan]
    by_cases h : (s.threads t).wakeup_time > s.ticks
    · have h2 : ¬ (s.threads t).wakeup_time ≤ s.ticks := by omega
      simp [h, h2, List.takeWhile_cons]
    · have h2 : (s.threads t).wakeup_time ≤ s.ticks := by omega
      rw [if_neg h]
      simp only [List.takeWhile_cons, h2, decide_True, if_true, ih,
        thread_unblock_wakeup_time]
      rfl

theorem wake_scan_inspected (l : List Tid) (s : Kernel) :
    (wake_scan l s).inspected
      = l.take ((l.takeWhile
          (fun t => decide ((s.threads t).wakeup_time ≤ s.ticks))).length + 1) := by
  induction l generalizing s with
  | nil => rfl
  | cons t rest ih =>
    simp only [wake_scan]
    by_cases h : (s.threads t).wakeup_time > s.ticks
    · have h2 : ¬ (s.threads t).wakeup_time ≤ s.ticks := by omega
      simp [h, h2, List.takeWhile_cons]
    · have h2 : (s.threads t).wakeup_time ≤ s.ticks := by omega
      rw [if_neg h]
      simp only [List.takeWhile_cons, h2, decide_True, if_true, ih,
        thread_unblock_wakeup_time, List.length_cons, List.take_succ_cons]
      rfl

/-- The instrumented loop is the loop of `timer_interrupt`. -/
theorem timer_interrupt_eq_scan (s : Kernel) :
    timer_interrupt s = intr_set_level (timer_interrupt_scan s).state s.level := by
  simp only [timer_interrupt, timer_interrupt_scan, wake_scan_state]
  rfl

/-- C15. Wake scan bound: on a sorted sleep list, with `k` the number of
entries whose `wakeup_time` is at most the tick counter after the increment,
the wake loop of `timer_interrupt` ends having removed exactly `k` entries
(the due ones) and having read the front entry at most `k + 1` times: the
first `k + 1` entries of the list, whatever its length. -/
theorem wake_scan_bound (s : Kernel) (hs : sleep_list_sorted s) :
    timer_interrupt s = intr_set_level (timer_interrupt_scan s).state s.level
      ∧ (timer_interrupt_scan s).removed.length
          = s.sleep_list.countP
              (fun t => decide ((s.threads t).wakeup_time ≤ (timer_interrupt s).ticks))
      ∧ (timer_interrupt_scan s).inspected.length
          ≤ s.sleep_list.countP
              (fun t => decide ((s.threads t).wakeup_time ≤ (timer_interrupt s).ticks)) + 1
      ∧ (timer_interrupt_scan s).inspected
          = s.sleep_list.take (s.sleep_list.countP
              (fun t => decide ((s.threads t).wakeup_time ≤ (timer_interrupt s).ticks)) + 1) := by
  have hp := (sleep_list_sorted_iff s).mp hs
  have hrem : (timer_interrupt_scan s).removed
      = s.sleep_list.filter
          (fun t => decide ((s.threads t).wakeup_time ≤ (timer_interrupt s).ticks)) := by
    rw [timer_interrupt_ticks]
    simp only [timer_interrupt_scan, wake_scan_removed, thread_tick, intr_disable]
    exact takeWhile_le_eq_filter (fun t => (s.threads t).wakeup_time) _ _ hp
  have hins : (timer_interrupt_scan s).inspected
      = s.sleep_list.take ((s.sleep_list.filter
          (fun t => decide ((s.threads t).wakeup_time ≤ (timer_interrupt s).ticks))).length
            + 1) := by
    rw [timer_interrupt_ticks]
    simp only [timer_interrupt_scan, wake_scan_inspected, thread_tick, intr_disable]
    rw [takeWhile_le_eq_filter (fun t => (s.threads t).wakeup_time) _ _ hp]
  refine ⟨timer_interrupt_eq_scan s, ?_, ?_, ?_⟩
  · rw [hrem, List.countP_eq_length_filter]
  · rw [hins, List.countP_eq_length_filter, List.length_take]
    exact Nat.min_le_left _ _
  · rw [hins, List.countP_eq_length_filter]

set_option maxRecDepth 100000 in
/-- Witness of C15: with deadlines 105, 105, 110, 120 the interrupt that
reaches tick 105 removes the two due entries and reads three front entries;
the fourth entry is not looked at. -/
theorem wake_scan_bound_witness :
    sleep_list_sorted four_sleepers
      ∧ (timer_interrupt_scan four_sleepers).removed = [3, 1]
      ∧ (timer_interrupt_scan four_sleepers).inspected = [3, 1, 2]
      ∧ (timer_interrupt_scan four_sleepers).inspected.length
          ≤ four_sleepers.sleep_list.countP
              (fun t => decide ((four_sleepers.threads t).wakeup_time
                ≤ (timer_interrupt four_sleepers).ticks)) + 1
      ∧ four_sleepers.sleep_list.length = 4 := by
  have hs : sleep_list_sorted four_sleepers := by
    simp [sleep_list_sorted, deadlines, four_sleepers]
  exact ⟨hs, by decide!, by decide!, (wake_scan_bound four_sleepers hs).2.2.1, by decide⟩


/-! ## Destroyed threads and the wake pass -/

theorem Inv_four_sleepers : Inv four_sleepers := by
  refine ⟨?_, ?_, ?_⟩
  · simp [four_sleepers]
  · simp [four_sleepers]
  · intro t ht
    simp only [four_sleepers, List.mem_cons, List.mem_singleton, List.not_mem_nil,
      or_false] at ht
    rcases ht with rfl | rfl | rfl | rfl <;> simp [four_sleepers]

/-- C16. Real-time conversion: for `num ≥ 0`, `denom` one of 1000, 10^6,
10^9, `TIMER_FREQ` in [19, 1000] and `num * TIMER_FREQ` within 64 bits,
`real_time_sleep (num, denom)` computes `ticks = num * TIMER_FREQ / denom`
rounded down (`denom * ticks ≤ num * TIMER_FREQ < denom * (ticks + 1)`).
With interrupts enabled it calls `timer_sleep (ticks)` when `ticks > 0` and
otherwise busy-waits, leaving the kernel state, sleep list included, as it
is; in that branch the divisor `denom / 1000` is not zero.  With interrupts
disabled its assertion stops it. -/
theorem real_time_sleep_conversion (TIMER_FREQ : Int) (loops_per_tick : Nat) (s : Kernel)
    (cur : Tid) (num denom : Int) (n m : Nat)
    (hF : 19 ≤ TIMER_FREQ ∧ TIMER_FREQ ≤ 1000) (hnum : 0 ≤ num)
    (hov : num * TIMER_FREQ < 2 ^ 63)
    (hden : denom = 1000 ∨ denom = 1000000 ∨ denom = 1000000000) :
    (denom * (num * TIMER_FREQ / denom) ≤ num * TIMER_FREQ
        ∧ num * TIMER_FREQ < denom * (num * TIMER_FREQ / denom + 1))
      ∧ (s.level = INTR_ON → 0 < num * TIMER_FREQ / denom →
          real_time_sleep TIMER_FREQ loops_per_tick s cur num denom n m
            = .slept (num * TIMER_FREQ / denom)
                (timer_sleep s cur (num * TIMER_FREQ / denom) n m))
      ∧ (s.level = INTR_ON → num * TIMER_FREQ / denom ≤ 0 →
          ∃ loops, real_time_sleep TIMER_FREQ loops_per_tick s cur num denom n m
            = .busy_waited s loops)
      ∧ (s.level ≠ INTR_ON →
          real_time_sleep TIMER_FREQ loops_per_tick s cur num denom n m = .panicked s)
      ∧ Int.tdiv denom 1000 ≠ 0 := by
  have hdpos : 0 < denom := by rcases hden with h | h | h <;> rw [h] <;> decide
  have hd0 : denom ≠ 0 := by omega
  have hprod : 0 ≤ num * TIMER_FREQ := Int.mul_nonneg hnum (by omega)
  have hw : wrap64 (num * TIMER_FREQ) = num * TIMER_FREQ :=
    wrap64_of_int64 _ ⟨by omega, hov⟩
  have hq0 : 0 ≤ num * TIMER_FREQ / denom := Int.ediv_nonneg hprod (by omega)
  have hqle : num * TIMER_FREQ / denom ≤ num * TIMER_FREQ := Int.ediv_le_self _ hprod
  have htd : Int.tdiv (num * TIMER_FREQ) denom = num * TIMER_FREQ / denom :=
    Int.tdiv_eq_ediv hprod (by omega)
  have hticks : wrap64 (Int.tdiv (wrap64 (num * TIMER_FREQ)) denom)
      = num * TIMER_FREQ / denom := by
    rw [hw, htd]
    exact wrap64_of_int64 _ ⟨by omega, by omega⟩
  have hmod : Int.tmod denom 1000 = 0 := by
    rcases hden with h | h | h <;> rw [h] <;> decide
  have hdiv : Int.tdiv denom 1000 ≠ 0 := by
    rcases hden with h | h | h <;> rw [h] <;> decide
  refine ⟨⟨?_, ?_⟩, ?_, ?_, ?_, hdiv⟩
  · exact Int.mul_ediv_self_le hd0
  · exact Int.lt_mul_ediv_self_add hdpos |>.trans_eq (by ring)
  · intro hl hpos
    simp only [real_time_sleep, hd0, if_false, hticks, intr_get_level, hl, ne_eq,
      not_true_eq_false, gt_iff_lt, hpos, if_true]
  · intro hl hle
    have hnpos : ¬ 0 < num * TIMER_FREQ / denom := by omega
    refine ⟨wrap64 (Int.tdiv
      (wrap64 (wrap64 (Int.tdiv (wrap64 (loops_per_tick * num)) 1000) * TIMER_FREQ))
      (Int.tdiv denom 1000)), ?_⟩
    simp only [real_time_sleep, hd0, if_false, hticks, intr_get_level, hl, ne_eq,
      not_true_eq_false, gt_iff_lt, hnpos, hmod, hdiv]
  · intro hl
    simp only [real_time_sleep, hd0, if_false, intr_get_level, ne_eq, hl, not_false_eq_true,
      if_true]

set_option maxRecDepth 100000 in
/-- Witness of C16: at 100 ticks per second, 50 ms are 5 ticks and
`timer_sleep (5)` is called; 5 ms are 0 ticks and the call busy-waits. -/
theorem real_time_sleep_conversion_witness :
    timer_msleep 100 1000 boot 1 50 0 0 = .slept 5 (timer_sleep boot 1 5 0 0)
      ∧ (timer_sleep boot 1 5 0 0).state.sleep_list = [1]
      ∧ (∃ loops, timer_msleep 100 1000 boot 1 5 0 0 = .busy_waited boot loops)
      ∧ Int.tdiv 1000 1000 ≠ 0 :=
  have h50 := real_time_sleep_conversion 100 1000 boot 1 50 1000 0 0
    ⟨by decide, by decide⟩ (by decide) (by decide) (Or.inl rfl)
  have h5 := real_time_sleep_conversion 100 1000 boot 1 5 1000 0 0
    ⟨by decide, by decide⟩ (by decide) (by decide) (Or.inl rfl)
  ⟨h50.2.1 rfl (by decide), by decide!, h5.2.2.1 rfl (by decide), h5.2.2.2.2⟩


/-! ## The `write` system call -/

theorem wrap32s_of_small (size : Nat) (h : size < 2 ^ 31) : wrap32s size = size := by
  unfold wrap32s
  omega

theorem process_get_file_none_of_ge (s : Sys) (fd : Int) (h : 128 ≤ fd) :
    process_get_file s fd = none := by
  simp [process_get_file, h]

/-- C17, as stated, fails: `write (1, buffer, 4294967295)` with a valid buffer
returns -1 although `fd` is 1, and it does not return `size`. -/
theorem write_stdout_returns_minus_one :
    (write writes_all one_file true 1 4294967295).ret = some (-1)
      ∧ ¬ ((1 : Int) = 0 ∨ ((1 : Int) ≥ 2 ∧ process_get_file one_file 1 = none))
      ∧ (write writes_all one_file true 1 4294967295).ret ≠ some 4294967295 := by
  decide

/-- C17, amended. For a valid buffer and a `file_write` that returns
non-negative counts, `write (fd, buffer, size)` returns: `size` converted to
`int` when `fd` is 1, which is `size` when `size < 2^31`; -1 when `fd` is 0;
-1 when `fd ≥ 2` has no open file, which includes every `fd ≥ 128`; the
`file_write` count when `fd ≥ 2` has an open file; 0 for every negative
`fd`.  When `size < 2^31` it returns -1 exactly when `fd` is 0 or `fd ≥ 2`
has no open file. -/
theorem write_return_value (file_write : Nat → Nat → Int) (s : Sys) (fd : Int) (size : Nat)
    (hfw : ∀ f n, 0 ≤ file_write f n) :
    (∃ r, (write file_write s true fd size).ret = some r)
      ∧ (fd = 1 → (write file_write s true fd size).ret = some (wrap32s size))
      ∧ (fd = 1 → size < 2 ^ 31 → (write file_write s true fd size).ret = some (size : Int))
      ∧ (fd = 0 → (write file_write s true fd size).ret = some (-1))
      ∧ (2 ≤ fd → process_get_file s fd = none →
          (write file_write s true fd size).ret = some (-1))
      ∧ (128 ≤ fd → (write file_write s true fd size).ret = some (-1))
      ∧ (∀ f, 2 ≤ fd → process_get_file s fd = some f →
          (write file_write s true fd size).ret = some (file_write f size))
      ∧ (fd < 0 → (write file_write s true fd size).ret = some 0)
      ∧ (size < 2 ^ 31 →
          ((write file_write s true fd size).ret = some (-1)
            ↔ fd = 0 ∨ (2 ≤ fd ∧ process_get_file s fd = none))) := by
  have h1 : fd = 1 → (write file_write s true fd size).ret = some (wrap32s size) := by
    intro h
    simp [write, h, SysOutcome.ret]
  have h0 : fd = 0 → (write file_write s true fd size).ret = some (-1) := by
    intro h
    simp [write, h, SysOutcome.ret]
  have hnone : 2 ≤ fd → process_get_file s fd = none →
      (write file_write s true fd size).ret = some (-1) := by
    intro h hf
    have e1 : fd ≠ 1 := by omega
    have e0 : fd ≠ 0 := by omega
    simp [write, e1, e0, h, hf, SysOutcome.ret]
  have hsome : ∀ f, 2 ≤ fd → process_get_file s fd = some f →
      (write file_write s true fd size).ret = some (file_write f size) := by
    intro f h hf
    have e1 : fd ≠ 1 := by omega
    have e0 : fd ≠ 0 := by omega
    simp [write, e1, e0, h, hf, SysOutcome.ret]
  have hneg : fd < 0 → (write file_write s true fd size).ret = some 0 := by
    intro h
    have e1 : fd ≠ 1 := by omega
    have e0 : fd ≠ 0 := by omega
    have e2 : ¬ fd ≥ 2 := by omega
    simp [write, e1, e0, e2, SysOutcome.ret]
  refine ⟨?_, h1, ?_, h0, hnone, ?_, hsome, hneg, ?_⟩
  · by_cases e1 : fd = 1
    · exact ⟨_, h1 e1⟩
    · by_cases e0 : fd = 0
      · exact ⟨_, h0 e0⟩
      · by_cases e2 : 2 ≤ fd
        · cases hf : process_get_file s fd with
          | none => exact ⟨_, hnone e2 hf⟩
          | some f => exact ⟨_, hsome f e2 hf⟩
        · exact ⟨_, hneg (by omega)⟩
  · intro h hs
    rw [h1 h, wrap32s_of_small size hs]
  · intro h
    exact hnone (by omega) (process_get_file_none_of_ge s fd h)
  · intro hs
    constructor
    · intro hret
      by_cases e1 : fd = 1
      · rw [h1 e1, wrap32s_of_small size hs] at hret
        have := Option.some.inj hret
        omega
      · by_cases e0 : fd = 0
        · exact Or.inl e0
        · by_cases e2 : 2 ≤ fd
          · cases hf : process_get_file s fd with
            | none => exact Or.inr ⟨e2, rfl⟩
            | some f =>
              rw [hsome f e2 hf] at hret
              have := Option.some.inj hret
              have := hfw f size
              omega
          · rw [hneg (by omega)] at hret
            cases hret
    · rintro (h | ⟨h, hf⟩)
      · exact h0 h
      · exact hnone h hf

/-- Witness of C17 amended: with descriptor 3 open, `write` returns 5 for
descriptors 1 and 3 and size 5, -1 for descriptors 0, 4 and 200, and 0 for
descriptor -2. -/
theorem write_return_value_witness :
    (∀ f n, 0 ≤ writes_all f n)
      ∧ (write writes_all one_file true 1 5).ret = some 5
      ∧ (write writes_all one_file true 3 5).ret = some 5
      ∧ (write writes_all one_file true 0 5).ret = some (-1)
      ∧ (write writes_all one_file true 4 5).ret = some (-1)
      ∧ (write writes_all one_file true 200 5).ret = some (-1)
      ∧ (write writes_all one_file true (-2) 5).ret = some 0 :=
  have hfw : ∀ f n, 0 ≤ writes_all f n := fun _ n => Int.ofNat_nonneg n
  ⟨hfw,
    (write_return_value writes_all one_file 1 5 hfw).2.2.1 rfl (by decide),
    (write_return_value writes_all one_file 3 5 hfw).2.2.2.2.2.2.1 7 (by decide) (by decide),
    (write_return_value writes_all one_file 0 5 hfw).2.2.2.1 rfl,
    (write_return_value writes_all one_file 4 5 hfw).2.2.2.2.1 (by decide) (by decide),
    (write_return_value writes_all one_file 200 5 hfw).2.2.2.2.2.1 (by decide),
    (write_return_value writes_all one_file (-2) 5 hfw).2.2.2.2.2.2.2.1 (by decide)⟩

/-- C18. Lock balance in `write`: for a valid buffer, on every path (stdout,
stdin, missing file, file write, negative descriptor) `write` returns having
acquired `filesys_lock` once and released it once, and the lock is not held
when it returns.  When the buffer is not valid the process exits before the
lock is touched. -/
theorem write_lock_balance (file_write : Nat → Nat → Int) (s : Sys) (fd : Int) (size : Nat) :
    (∃ r s', write file_write s true fd size = .returned r s'
        ∧ s'.acquires = s.acquires + 1 ∧ s'.releases = s.releases + 1
        ∧ s'.lock_held = false)
      ∧ write file_write s false fd size = .exited (-1) s := by
  refine ⟨?_, by simp [write]⟩
  by_cases e1 : fd = 1
  · refine ⟨wrap32s size, lock_release (putbuf (lock_acquire s) size), ?_, rfl, rfl, rfl⟩
    simp [write, e1]
  · by_cases e0 : fd = 0
    · refine ⟨-1, lock_release (lock_acquire s), ?_, rfl, rfl, rfl⟩
      simp [write, e0]
    · by_cases e2 : fd ≥ 2
      · cases hf : process_get_file s fd with
        | none =>
          refine ⟨-1, lock_release (lock_acquire s), ?_, rfl, rfl, rfl⟩
          simp [write, e1, e0, e2, hf]
        | some f =>
          refine ⟨file_write f size,
            lock_release { lock_acquire s with
              file_writes := (lock_acquire s).file_writes ++ [(f, size)] }, ?_, rfl, rfl, rfl⟩
          simp [write, e1, e0, e2, hf]
      · refine ⟨0, lock_release (lock_acquire s), ?_, rfl, rfl, rfl⟩
        simp [write, e1, e0, e2]

end Pintos
